import Mathlib

/-!
Verification development for `src/nn/scalar/modules_.py` of the normflow
repository: invertible scalar transformation modules with exact log-Jacobian
bookkeeping.  Tensors are embedded as batches of flattened site values
(`List (List ℝ)`: first axis is the batch index, the remaining axes are
flattened into one list).  The accumulated log-density is embedded as `LogD`,
which can be a python scalar, a per-batch-item array, or a per-element array;
`LogD.err` stands for a shape error raised by the tensor library.
-/

abbrev Tensor := List (List ℝ)

/-- Elementwise map over a tensor (`torch` unary elementwise op). -/
def Tensor.emap (f : ℝ → ℝ) (t : Tensor) : Tensor :=
  t.map (fun r => r.map f)

/-- Elementwise combination of two same-shaped nested lists
(`torch` binary elementwise op; truncating like `zipWith`). -/
def tzip {α β γ : Type} (k : α → β → γ)
    (a : List (List α)) (b : List (List β)) : List (List γ) :=
  List.zipWith (List.zipWith k) a b

/-- Elementwise addition of two tensors. -/
def Tensor.add2 (a b : Tensor) : Tensor := tzip (· + ·) a b

/-- Elementwise negation of a tensor. -/
def Tensor.negT (t : Tensor) : Tensor := t.emap (fun v => -v)

/-- The list of row lengths of a nested list; two tensors are torch-shape
compatible in our model exactly when these agree. -/
def shapeL {α : Type} (t : List (List α)) : List ℕ := t.map List.length

/-- Shape equality of two nested lists, as a Prop. -/
def ShapeEq {α β : Type} (a : List (List α)) (b : List (List β)) : Prop :=
  shapeL a = shapeL b

/-- Every element of every row satisfies `D` (elementwise domain predicate). -/
def ElemDom (D : ℝ → Prop) (t : Tensor) : Prop :=
  ∀ r ∈ t, ∀ v ∈ r, D v

/-- Every element of every row is zero. -/
def IsZeroT (t : Tensor) : Prop := ∀ r ∈ t, ∀ v ∈ r, v = 0

/-- Accumulated log-density value: a python scalar, a per-batch-item tensor,
a per-element tensor, or a runtime shape error. -/
inductive LogD where
  | scalar : ℝ → LogD
  | perBatch : List ℝ → LogD
  | perElem : Tensor → LogD
  | err : LogD

/-- Addition of log-density values, following torch broadcasting: a scalar
broadcasts against anything, same-shaped arrays add elementwise, and
mismatched shapes raise (modelled by `err`). -/
def LogD.add : LogD → LogD → LogD
  | LogD.scalar a, LogD.scalar b => LogD.scalar (a + b)
  | LogD.scalar a, LogD.perBatch v => LogD.perBatch (v.map (a + ·))
  | LogD.scalar a, LogD.perElem t => LogD.perElem (t.map (fun r => r.map (a + ·)))
  | LogD.perBatch v, LogD.scalar a => LogD.perBatch (v.map (· + a))
  | LogD.perElem t, LogD.scalar a => LogD.perElem (t.map (fun r => r.map (· + a)))
  | LogD.perBatch v, LogD.perBatch w =>
      if v.length = w.length then LogD.perBatch (List.zipWith (· + ·) v w) else LogD.err
  | LogD.perElem s, LogD.perElem t =>
      if shapeL s = shapeL t then LogD.perElem (Tensor.add2 s t) else LogD.err
  | _, _ => LogD.err

/-- Elementwise negation of a log-density value. -/
def LogD.neg : LogD → LogD
  | LogD.scalar a => LogD.scalar (-a)
  | LogD.perBatch v => LogD.perBatch (v.map (fun c => -c))
  | LogD.perElem t => LogD.perElem (Tensor.negT t)
  | LogD.err => LogD.err

/-- Multiplication of a log-density value by a python scalar. -/
def LogD.smul (c : ℝ) : LogD → LogD
  | LogD.scalar a => LogD.scalar (c * a)
  | LogD.perBatch v => LogD.perBatch (v.map (fun a => c * a))
  | LogD.perElem t => LogD.perElem (t.emap (fun a => c * a))
  | LogD.err => LogD.err

instance : Add LogD := ⟨LogD.add⟩

instance : Neg LogD := ⟨LogD.neg⟩

instance : Sub LogD := ⟨fun a b => a.add b.neg⟩

/-- A log-density value that is numerically zero everywhere. -/
def LogD.IsZero : LogD → Prop
  | LogD.scalar a => a = 0
  | LogD.perBatch v => ∀ c ∈ v, c = 0
  | LogD.perElem t => IsZeroT t
  | LogD.err => False

/-- Modelled from the spec: `Module_` (class in `_core`, not under `src/`)
provides the density-reduction helper: given a per-element log-Jacobian
array it returns the array itself when the process-wide density-propagation
flag `pd` is set, and otherwise its sum over all non-batch axes, one entry
per batch item. -/
def Module_.sum_density (pd : Bool) (t : Tensor) : LogD :=
  if pd then LogD.perElem t else LogD.perBatch (t.map (fun r => r.sum))

/-- The `Identity_` module: `forward(x, log0) = (x, log0)`. -/
def Identity_.forward (x : Tensor) (log0 : LogD) : Tensor × LogD := (x, log0)

/-- The `Identity_` module: `backward(x, log0) = (x, log0)`. -/
def Identity_.backward (x : Tensor) (log0 : LogD) : Tensor × LogD := (x, log0)

/-- The `Clone_` module: `forward` returns `x.clone()`; a clone has the same
values, so in our value semantics it is the tensor itself. -/
def Clone_.forward (x : Tensor) (log0 : LogD) : Tensor × LogD := (x, log0)

/-- The `Clone_` module backward, as `forward`. -/
def Clone_.backward (x : Tensor) (log0 : LogD) : Tensor × LogD := (x, log0)

/-- `ScaleNet_.log_jacobian(x_shape)`: in density mode
`logw * torch.ones(x_shape)`, otherwise `logw * np.product(x_shape[1:])`
replicated over the batch axis.  `rows` is the batch size `x_shape[0]` and
`cols` the product of the non-batch dimensions. -/
noncomputable def ScaleNet_.log_jacobian (pd : Bool) (logw : ℝ) (rows cols : ℕ) : LogD :=
  if pd then LogD.perElem (List.replicate rows (List.replicate cols logw))
  else LogD.perBatch (List.replicate rows (logw * cols))

/-- `ScaleNet_.forward`: `(x * exp(logw), log0 + log_jacobian(x.shape))`.
`logw` is the module's (trainable) parameter value. -/
noncomputable def ScaleNet_.forward (pd : Bool) (logw : ℝ) (x : Tensor) (log0 : LogD) :
    Tensor × LogD :=
  (x.emap (fun v => v * Real.exp logw),
    log0 + ScaleNet_.log_jacobian pd logw x.length (x.headD []).length)

/-- `ScaleNet_.backward`: `(x / exp(logw), log0 - log_jacobian(x.shape))`. -/
noncomputable def ScaleNet_.backward (pd : Bool) (logw : ℝ) (x : Tensor) (log0 : LogD) :
    Tensor × LogD :=
  (x.emap (fun v => v / Real.exp logw),
    log0 - ScaleNet_.log_jacobian pd logw x.length (x.headD []).length)

/-- `torch.atanh`, the inverse hyperbolic tangent (not in Mathlib):
`atanh v = log((1+v)/(1-v)) / 2`. -/
noncomputable def torchAtanh (v : ℝ) : ℝ := Real.log ((1 + v) / (1 - v)) / 2

/-- `Tanh_.forward`: `logJ = -2 * sum_density(log(cosh(x)))`,
returns `(tanh(x), log0 + logJ)`. -/
noncomputable def Tanh_.forward (sd : Tensor → LogD) (x : Tensor) (log0 : LogD) :
    Tensor × LogD :=
  (x.emap Real.tanh,
    log0 + LogD.smul (-2) (sd (x.emap (fun v => Real.log (Real.cosh v)))))

/-- `ArcTanh_.forward`: `y = atanh(x)`, `logJ = 2 * sum_density(log(cosh(y)))`,
returns `(y, log0 + logJ)`. -/
noncomputable def ArcTanh_.forward (sd : Tensor → LogD) (x : Tensor) (log0 : LogD) :
    Tensor × LogD :=
  let y := x.emap torchAtanh
  (y, log0 + LogD.smul 2 (sd (y.emap (fun v => Real.log (Real.cosh v)))))

/-- `Tanh_.backward` constructs a fresh `ArcTanh_()` (whose `sum_density` is
the default one, built from the global flag) and calls its forward. -/
noncomputable def Tanh_.backward (pd : Bool) (x : Tensor) (log0 : LogD) : Tensor × LogD :=
  ArcTanh_.forward (Module_.sum_density pd) x log0

/-- `ArcTanh_.backward` constructs a fresh `Tanh_()` and calls its forward. -/
noncomputable def ArcTanh_.backward (pd : Bool) (x : Tensor) (log0 : LogD) : Tensor × LogD :=
  Tanh_.forward (Module_.sum_density pd) x log0

/-- The sigmoid function `1 / (1 + exp(-v))` used by `Expit_`. -/
noncomputable def expit (v : ℝ) : ℝ := 1 / (1 + Real.exp (-v))

/-- `Expit_.forward`: `y = 1/(1+exp(-x))`, `logJ = sum_density(-x + 2*log(y))`,
returns `(y, log0 + logJ)`. -/
noncomputable def Expit_.forward (sd : Tensor → LogD) (x : Tensor) (log0 : LogD) :
    Tensor × LogD :=
  let y := x.emap expit
  (y, log0 + sd (tzip (fun a b => -a + 2 * Real.log b) x y))

/-- `Logit_.forward`: `y = log(x/(1-x))`,
`logJ = - sum_density(log(x * (1-x)))`, returns `(y, log0 + logJ)`. -/
noncomputable def Logit_.forward (sd : Tensor → LogD) (x : Tensor) (log0 : LogD) :
    Tensor × LogD :=
  (x.emap (fun v => Real.log (v / (1 - v))),
    log0 + LogD.neg (sd (x.emap (fun v => Real.log (v * (1 - v))))))

/-- `Expit_.backward` constructs a fresh `Logit_()` and calls its forward. -/
noncomputable def Expit_.backward (pd : Bool) (x : Tensor) (log0 : LogD) : Tensor × LogD :=
  Logit_.forward (Module_.sum_density pd) x log0

/-- `Logit_.backward` constructs a fresh `Expit_()` and calls its forward. -/
noncomputable def Logit_.backward (pd : Bool) (x : Tensor) (log0 : LogD) : Tensor × LogD :=
  Expit_.forward (Module_.sum_density pd) x log0

/-- `SgnBiasNet_.forward`: `(x + sgn(x) * w**2, log0)`; `w` is the module's
parameter value (default shape `[1]`, hence a broadcast scalar here). -/
noncomputable def SgnBiasNet_.forward (w : ℝ) (x : Tensor) (log0 : LogD) : Tensor × LogD :=
  (x.emap (fun v => v + Real.sign v * w ^ 2), log0)

/-- `SgnBiasNet_.backward`: `(x - sgn(x) * w**2, log0)`. -/
noncomputable def SgnBiasNet_.backward (w : ℝ) (x : Tensor) (log0 : LogD) : Tensor × LogD :=
  (x.emap (fun v => v - Real.sign v * w ^ 2), log0)

/-- Modelled from the spec: the external spline evaluator capability
(the `SplineNet.make_spline` engine is not under `src/`): `evaluate` maps
each element to `(y, grad)` with `grad` the local derivative at that
element, and `evalInv` is its inverse evaluation. -/
structure Spline where
  eval : ℝ → ℝ × ℝ
  evalInv : ℝ → ℝ × ℝ

/-- `x.ravel()`: flatten a tensor to one axis. -/
def Tensor.ravel (t : Tensor) : List ℝ := t.flatten

/-- `t.reshape(orig.shape)`: split a flat list back into the row lengths of
`orig`. -/
def reshapeLike : Tensor → List ℝ → Tensor
  | [], _ => []
  | r :: rs, flat => flat.take r.length :: reshapeLike rs (flat.drop r.length)

/-- `SplineNet_.forward`: evaluate the spline at `x` (flattening to 1-D and
restoring the shape when the configured spline shape has zero rank), obtain
`(fx, g)`, and return `(fx, log0 + sum_density(log(g)))`. -/
noncomputable def SplineNet_.forward (sp : Spline) (spline_shape : List ℕ)
    (sd : Tensor → LogD) (x : Tensor) (log0 : LogD) : Tensor × LogD :=
  if 0 < spline_shape.length then
    let fx := x.emap (fun v => (sp.eval v).1)
    let g := x.emap (fun v => (sp.eval v).2)
    (fx, log0 + sd (g.emap Real.log))
  else
    let fxg := x.ravel.map sp.eval
    let fx := reshapeLike x (fxg.map Prod.fst)
    let g := reshapeLike x (fxg.map Prod.snd)
    (fx, log0 + sd (g.emap Real.log))

/-- `SplineNet_.backward`: as forward, with the spline's inverse
evaluation. -/
noncomputable def SplineNet_.backward (sp : Spline) (spline_shape : List ℕ)
    (sd : Tensor → LogD) (x : Tensor) (log0 : LogD) : Tensor × LogD :=
  if 0 < spline_shape.length then
    let fx := x.emap (fun v => (sp.evalInv v).1)
    let g := x.emap (fun v => (sp.evalInv v).2)
    (fx, log0 + sd (g.emap Real.log))
  else
    let fxg := x.ravel.map sp.evalInv
    let fx := reshapeLike x (fxg.map Prod.fst)
    let g := reshapeLike x (fxg.map Prod.snd)
    (fx, log0 + sd (g.emap Real.log))

/-- The spline-stage configuration assembled by `DistConvertor_.__init__`:
the `xlim`/`ylim` keyword pairs and whether `extrap` maps `left` to
`anti`. -/
structure SplineCfg where
  xlim : ℝ × ℝ
  ylim : ℝ × ℝ
  extrapLeftAnti : Bool

/-- The kinds of sub-module a `DistConvertor_` instance can hold, with their
label and current parameter values. -/
inductive Net where
  | scale : String → ℝ → Net
  | expit : String → Net
  | logit : String → Net
  | spline : String → ℕ → SplineCfg → Net
  | sgnbias : String → ℝ → Net

/-- The `label` attribute of a sub-module. -/
def Net.label : Net → String
  | Net.scale l _ => l
  | Net.expit l => l
  | Net.logit l => l
  | Net.spline l _ _ => l
  | Net.sgnbias l _ => l

/-- Dispatch a sub-module's `forward`.  `pd` is the process-wide
density-propagation flag and `sp` the spline evaluator supplied to the
spline stage (whose configured spline shape has zero rank). -/
noncomputable def Net.forward (pd : Bool) (sp : Spline) :
    Net → Tensor → LogD → Tensor × LogD
  | Net.scale _ logw => ScaleNet_.forward pd logw
  | Net.expit _ => Expit_.forward (Module_.sum_density pd)
  | Net.logit _ => Logit_.forward (Module_.sum_density pd)
  | Net.spline _ _ _ => SplineNet_.forward sp [] (Module_.sum_density pd)
  | Net.sgnbias _ w => SgnBiasNet_.forward w

/-- Dispatch a sub-module's `backward`. -/
noncomputable def Net.backward (pd : Bool) (sp : Spline) :
    Net → Tensor → LogD → Tensor × LogD
  | Net.scale _ logw => ScaleNet_.backward pd logw
  | Net.expit _ => Expit_.backward pd
  | Net.logit _ => Logit_.backward pd
  | Net.spline _ _ _ => SplineNet_.backward sp [] (Module_.sum_density pd)
  | Net.sgnbias _ w => SgnBiasNet_.backward w

/-- Modelled from the spec: `ModuleList_` (class in `_core`, not under
`src/`) applies its modules in list order on `forward`, threading
`(x, log0)` through each. -/
def ModuleList_.forward (step : Net → Tensor → LogD → Tensor × LogD)
    (nets : List Net) (x : Tensor) (log0 : LogD) : Tensor × LogD :=
  nets.foldl (fun p n => step n p.1 p.2) (x, log0)

/-- Modelled from the spec: `ModuleList_` applies its modules in reverse
list order on `backward`. -/
def ModuleList_.backward (step : Net → Tensor → LogD → Tensor × LogD)
    (nets : List Net) (x : Tensor) (log0 : LogD) : Tensor × LogD :=
  nets.reverse.foldl (fun p n => step n p.1 p.2) (x, log0)

/-- `DistConvertor_.__init__`: the list of sub-modules it assembles, with
the current values `logw` of a scale stage's parameter and `w` of a
sign-bias stage's parameter. -/
noncomputable def DistConvertor_.nets_ (knots_len : ℕ)
    (symmetric sgnbias initial_scale final_scale : Bool) (logw w : ℝ) : List Net :=
  let extra : SplineCfg :=
    if symmetric then ⟨(0.5, 1), (0.5, 1), true⟩ else ⟨(0, 1), (0, 1), false⟩
  let nets1 : List Net :=
    if 1 < knots_len then
      [Net.expit "expit_", Net.spline "spline_" knots_len extra, Net.logit "logit_"]
    else []
  let nets2 : List Net :=
    if initial_scale then Net.scale "scale_" logw :: nets1
    else if final_scale then nets1 ++ [Net.scale "scale_" logw]
    else nets1
  if sgnbias then Net.sgnbias "sgnbias_" w :: nets2 else nets2

/-- `DistConvertor_.forward`, inherited from `ModuleList_`. -/
noncomputable def DistConvertor_.forward (pd : Bool) (sp : Spline) (knots_len : ℕ)
    (symmetric sgnbias initial_scale final_scale : Bool) (logw w : ℝ)
    (x : Tensor) (log0 : LogD) : Tensor × LogD :=
  ModuleList_.forward (Net.forward pd sp)
    (DistConvertor_.nets_ knots_len symmetric sgnbias initial_scale final_scale logw w)
    x log0

/-- `DistConvertor_.backward`, inherited from `ModuleList_`. -/
noncomputable def DistConvertor_.backward (pd : Bool) (sp : Spline) (knots_len : ℕ)
    (symmetric sgnbias initial_scale final_scale : Bool) (logw w : ℝ)
    (x : Tensor) (log0 : LogD) : Tensor × LogD :=
  ModuleList_.backward (Net.backward pd sp)
    (DistConvertor_.nets_ knots_len symmetric sgnbias initial_scale final_scale logw w)
    x log0

/-- `DistConvertor_.get_spline_`: scan the module list and return the first
module labelled `spline_`, or `None`. -/
def DistConvertor_.get_spline_ (nets : List Net) : Option Net :=
  nets.find? (fun n => n.label == "spline_")

/-- `DistConvertor_.get_scale_`: first module labelled `scale_`, or
`None`. -/
def DistConvertor_.get_scale_ (nets : List Net) : Option Net :=
  nets.find? (fun n => n.label == "scale_")

/-- `DistConvertor_.get_sgnbias_`: first module labelled `sgnbias_`, or
`None`. -/
def DistConvertor_.get_sgnbias_ (nets : List Net) : Option Net :=
  nets.find? (fun n => n.label == "sgnbias_")

/-- `DistConvertor_.cdf_mapper(cdf)`: call the tagged spline stage on `cdf`
directly (calling a module invokes its `forward` with the default
`log0 = 0`); calling `None` raises, modelled by `Option`. -/
noncomputable def DistConvertor_.cdf_mapper (pd : Bool) (sp : Spline) (nets : List Net)
    (cdf : Tensor) : Option (Tensor × LogD) :=
  (DistConvertor_.get_spline_ nets).map
    (fun n => Net.forward pd sp n cdf (LogD.scalar 0))

/-- Modelled from the spec: the external `Mask` capability partitions the
elements of a sample into active and frozen subsets.  We use the
zero-filling representation the spec's `purify` describes ("zeroes out ...
inactive lanes"): both parts keep the sample's shape, with the other
subset's lanes zeroed. -/
structure Mask where
  pattern : List (List Bool)

/-- Zero every lane whose pattern entry is `false` (the frozen lanes). -/
def Mask.keep (m : Mask) (t : Tensor) : Tensor :=
  tzip (fun b v => if b then v else 0) m.pattern t

/-- Zero every lane whose pattern entry is `true` (the active lanes). -/
def Mask.drop (m : Mask) (t : Tensor) : Tensor :=
  tzip (fun b v => if b then 0 else v) m.pattern t

/-- Modelled from the spec: `mask.split(x) -> (active, frozen)`. -/
def Mask.split (m : Mask) (x : Tensor) : Tensor × Tensor := (m.keep x, m.drop x)

/-- Modelled from the spec: `mask.purify(values, channel)` zeroes the lanes
outside the given channel (channel `0` is the active subset). -/
def Mask.purify (m : Mask) (v : Tensor) (channel : ℕ) : Tensor :=
  if channel = 0 then m.keep v else m.drop v

/-- Modelled from the spec: `mask.cat(active, frozen)` recombines the two
same-shaped parts. -/
def Mask.cat (_ : Mask) (a f : Tensor) : Tensor := Tensor.add2 a f

/-- The identity function `lambda x: x` installed over the inner module's
`sum_density` by `MaskedWrapperNet_.__init__`; the per-element array is
returned unreduced. -/
def MaskedWrapperNet_.overrideSD : Tensor → LogD := fun t => LogD.perElem t

/-- `mask.purify` applied to a dynamically-typed log-density value (in the
wrapper the inner module's call yields the raw per-element array); any
other shape is a runtime error. -/
def Mask.purifyL (m : Mask) (l : LogD) (channel : ℕ) : LogD :=
  match l with
  | LogD.perElem t => LogD.perElem (m.purify t channel)
  | _ => LogD.err

/-- The saved original reduction function (`self.original_net_sum_density`)
applied to a dynamically-typed value. -/
def Module_.sum_densityL (pd : Bool) (l : LogD) : LogD :=
  match l with
  | LogD.perElem t => Module_.sum_density pd t
  | _ => LogD.err

/-- `MaskedWrapperNet_.forward`: split `x`, run the inner module's forward
on the active part (its `sum_density` having been replaced by the identity
at construction time), purify the result and the per-element density, reduce
the purified density with the saved original `sum_density`, and recombine.
`netF` is the inner module's forward as a function of its (overridden)
`sum_density`. -/
def MaskedWrapperNet_.forward (pd : Bool) (m : Mask)
    (netF : (Tensor → LogD) → Tensor → LogD → Tensor × LogD)
    (x : Tensor) (log0 : LogD) : Tensor × LogD :=
  let s := m.split x
  let r := netF MaskedWrapperNet_.overrideSD s.1 (LogD.scalar 0)
  let xa := m.purify r.1 0
  let logJ := Module_.sum_densityL pd (m.purifyL r.2 0)
  (m.cat xa s.2, log0 + logJ)

/-- `MaskedWrapperNet_.backward`: as forward, with the inner module's
backward. -/
def MaskedWrapperNet_.backward (pd : Bool) (m : Mask)
    (netB : (Tensor → LogD) → Tensor → LogD → Tensor × LogD)
    (x : Tensor) (log0 : LogD) : Tensor × LogD :=
  let s := m.split x
  let r := netB MaskedWrapperNet_.overrideSD s.1 (LogD.scalar 0)
  let xa := m.purify r.1 0
  let logJ := Module_.sum_densityL pd (m.purifyL r.2 0)
  (m.cat xa s.2, log0 + logJ)

/-- An elementwise flow module: value maps `f`/`finv` and per-element
log-Jacobian maps `jf`/`jb`, with forward and backward of the shape every
elementwise module of this file has.  Used to instantiate the inner module
of `MaskedWrapperNet_`. -/
structure ElemNet where
  f : ℝ → ℝ
  finv : ℝ → ℝ
  jf : ℝ → ℝ
  jb : ℝ → ℝ

/-- Forward of an elementwise module: `(f(x), log0 + sum_density(jf(x)))`. -/
def ElemNet.fwd (e : ElemNet) (sd : Tensor → LogD) (x : Tensor) (log0 : LogD) :
    Tensor × LogD :=
  (x.emap e.f, log0 + sd (x.emap e.jf))

/-- Backward of an elementwise module:
`(finv(x), log0 + sum_density(jb(x)))`. -/
def ElemNet.bwd (e : ElemNet) (sd : Tensor → LogD) (x : Tensor) (log0 : LogD) :
    Tensor × LogD :=
  (x.emap e.finv, log0 + sd (x.emap e.jb))

/-- The round-trip property of a claim: `backward(forward(x, 0))` returns
`x` together with an accumulated log-density that is numerically zero. -/
def RoundTrip0 (fwd bwd : Tensor → LogD → Tensor × LogD) (x : Tensor) : Prop :=
  (bwd (fwd x (LogD.scalar 0)).1 (fwd x (LogD.scalar 0)).2).1 = x ∧
    ((bwd (fwd x (LogD.scalar 0)).1 (fwd x (LogD.scalar 0)).2).2).IsZero

/-- The incoming accumulated log-density has the kind and shape the active
density mode dictates for input `x`: per-element of `x`'s shape in density
mode, one entry per batch item otherwise. -/
def KindOK (pd : Bool) (L : LogD) (x : Tensor) : Prop :=
  match pd, L with
  | true, LogD.perElem t => shapeL t = shapeL x
  | false, LogD.perBatch v => v.length = x.length
  | _, _ => False

/-- Rectangularity: every row has the length of the first row (torch tensors
are rectangular; our nested-list embedding must state it). -/
def Rect (x : Tensor) : Prop := ∀ n ∈ shapeL x, n = (shapeL x).headD 0

/-- Stage invariant for pipeline round trips: on domain `D` (for
rectangular inputs) the stage's backward undoes its forward exactly — both
for mode-shaped incoming densities and for the fresh scalar `0` — forward
preserves shapes, produces values in `D'`, and either passes the
accumulated density through untouched or produces a mode-shaped one. -/
structure StageOK (fwd bwd : Tensor → LogD → Tensor × LogD) (pd : Bool)
    (D D' : ℝ → Prop) : Prop where
  rt : ∀ x L, ElemDom D x → Rect x → KindOK pd L x →
    bwd (fwd x L).1 (fwd x L).2 = (x, L)
  rt0 : ∀ x, ElemDom D x → Rect x →
    (bwd (fwd x (LogD.scalar 0)).1 (fwd x (LogD.scalar 0)).2).1 = x ∧
      ((bwd (fwd x (LogD.scalar 0)).1 (fwd x (LogD.scalar 0)).2).2).IsZero
  dom : ∀ x L, ElemDom D x → ElemDom D' (fwd x L).1
  shp : ∀ x L, shapeL (fwd x L).1 = shapeL x
  kind : ∀ x L, ElemDom D x → Rect x → KindOK pd L x →
    KindOK pd (fwd x L).2 (fwd x L).1
  zcase : ∀ x, ElemDom D x → Rect x →
    ((fwd x (LogD.scalar 0)).2 = LogD.scalar 0 ∧
      ∀ M, bwd (fwd x (LogD.scalar 0)).1 M = (x, M)) ∨
      KindOK pd (fwd x (LogD.scalar 0)).2 (fwd x (LogD.scalar 0)).1

/-- A chain of stages whose domains link up: stage `n` is invertible on `D`
and feeds the rest of the chain inside `D'`. -/
inductive Chain (pd : Bool) (sp : Spline) : List Net → (ℝ → Prop) → (ℝ → Prop) → Prop where
  | nil : ∀ D, Chain pd sp [] D D
  | cons : ∀ (n : Net) (rest : List Net) (D D' D'' : ℝ → Prop),
      StageOK (Net.forward pd sp n) (Net.backward pd sp n) pd D D' →
      Chain pd sp rest D' D'' → Chain pd sp (n :: rest) D D''

/-- The boundary contract of the supplied spline evaluator on a domain `D`:
the inverse evaluation undoes `eval`, the gradients at corresponding points
multiply to `1`, and the gradient is strictly positive. -/
def SplineInverts (sp : Spline) (D : ℝ → Prop) : Prop :=
  ∀ v, D v → (sp.evalInv (sp.eval v).1).1 = v ∧
    (sp.evalInv (sp.eval v).1).2 * (sp.eval v).2 = 1 ∧ 0 < (sp.eval v).2

/-- The spline evaluator maps domain `D` into `D'`. -/
def SplineMapsInto (sp : Spline) (D D' : ℝ → Prop) : Prop :=
  ∀ v, D v → D' (sp.eval v).1

/-- The open unit interval, the domain of `Logit_` and of the unit-interval
spline stage. -/
def unitOO (v : ℝ) : Prop := 0 < v ∧ v < 1

/-- The trivial domain (all reals). -/
def allR (_ : ℝ) : Prop := True

/-- The active lanes of `x` (where the pattern holds) all satisfy `D`. -/
def MaskDom (D : ℝ → Prop) (p : List (List Bool)) (x : Tensor) : Prop :=
  ∀ q ∈ p.zip x, ∀ e ∈ q.1.zip q.2, e.1 = true → D e.2

/-- Element access with defaults (row `i`, column `j`). -/
def gete {α : Type} (t : List (List α)) (d : α) (i j : ℕ) : α :=
  (t.getD i []).getD j d

/-- Whether a sub-module is a `ScaleNet_` stage. -/
def Net.isScale : Net → Bool
  | Net.scale _ _ => true
  | _ => false

/-- The identity spline evaluator (gradient one everywhere); a concrete
instance of the spline-evaluator contract. -/
def spId : Spline := ⟨fun v => (v, 1), fun v => (v, 1)⟩

/-- The identity elementwise module (zero log-Jacobian). -/
def enetId : ElemNet := ⟨fun v => v, fun v => v, fun _ => 0, fun _ => 0⟩

/-- The statement of the round-trip claim: every module of the file inverts
its own forward on the given inputs, with accumulated log-density zero. -/
def C1Prop (pd : Bool) (logw wSgn : ℝ) (sp spC : Spline) (spline_shape : List ℕ)
    (knots_len : ℕ) (symmetric sgnbias initial_scale final_scale : Bool)
    (logwC wC : ℝ) (m : Mask) (e : ElemNet)
    (x1 x2 x3 x4 x5 x6 x7 x8 x9 x10 x11 : Tensor) : Prop :=
  RoundTrip0 Identity_.forward Identity_.backward x1 ∧
  RoundTrip0 Clone_.forward Clone_.backward x2 ∧
  RoundTrip0 (ScaleNet_.forward pd logw) (ScaleNet_.backward pd logw) x3 ∧
  RoundTrip0 (Tanh_.forward (Module_.sum_density pd)) (Tanh_.backward pd) x4 ∧
  RoundTrip0 (ArcTanh_.forward (Module_.sum_density pd)) (ArcTanh_.backward pd) x5 ∧
  RoundTrip0 (Expit_.forward (Module_.sum_density pd)) (Expit_.backward pd) x6 ∧
  RoundTrip0 (Logit_.forward (Module_.sum_density pd)) (Logit_.backward pd) x7 ∧
  RoundTrip0 (SgnBiasNet_.forward wSgn) (SgnBiasNet_.backward wSgn) x8 ∧
  RoundTrip0 (SplineNet_.forward sp spline_shape (Module_.sum_density pd))
    (SplineNet_.backward sp spline_shape (Module_.sum_density pd)) x9 ∧
  RoundTrip0
    (DistConvertor_.forward pd spC knots_len symmetric sgnbias initial_scale
      final_scale logwC wC)
    (DistConvertor_.backward pd spC knots_len symmetric sgnbias initial_scale
      final_scale logwC wC) x10 ∧
  RoundTrip0 (MaskedWrapperNet_.forward pd m e.fwd)
    (MaskedWrapperNet_.backward pd m e.bwd) x11

/-- The statement of the inverse-pair claim: backward of `Tanh_`/`Expit_`
(resp. `ArcTanh_`/`Logit_`) is the dual module's forward, the two forwards
are functional inverses, and their log-Jacobians have opposite signs at
corresponding points. -/
def C2Prop (pd : Bool) (x y z : Tensor) (l l2 : LogD) : Prop :=
  Tanh_.backward pd x l = ArcTanh_.forward (Module_.sum_density pd) x l ∧
  Expit_.backward pd x l = Logit_.forward (Module_.sum_density pd) x l ∧
  ArcTanh_.backward pd x l = Tanh_.forward (Module_.sum_density pd) x l ∧
  Logit_.backward pd x l = Expit_.forward (Module_.sum_density pd) x l ∧
  (ArcTanh_.forward (Module_.sum_density pd)
    (Tanh_.forward (Module_.sum_density pd) x l).1 l2).1 = x ∧
  (Tanh_.forward (Module_.sum_density pd)
    (ArcTanh_.forward (Module_.sum_density pd) y l).1 l2).1 = y ∧
  (Logit_.forward (Module_.sum_density pd)
    (Expit_.forward (Module_.sum_density pd) x l).1 l2).1 = x ∧
  (Expit_.forward (Module_.sum_density pd)
    (Logit_.forward (Module_.sum_density pd) z l).1 l2).1 = z ∧
  (ArcTanh_.forward (Module_.sum_density pd)
      (Tanh_.forward (Module_.sum_density pd) x (LogD.scalar 0)).1
      (LogD.scalar 0)).2 =
    LogD.neg ((Tanh_.forward (Module_.sum_density pd) x (LogD.scalar 0)).2) ∧
  (Logit_.forward (Module_.sum_density pd)
      (Expit_.forward (Module_.sum_density pd) x (LogD.scalar 0)).1
      (LogD.scalar 0)).2 =
    LogD.neg ((Expit_.forward (Module_.sum_density pd) x (LogD.scalar 0)).2)

/-! ### List and tensor toolkit -/

theorem zipWith_self_map {α β : Type} (k : α → α → β) (l : List α) :
    List.zipWith k l l = l.map (fun v => k v v) := by
  induction l with
  | nil => rfl
  | cons a t ih => simp [List.zipWith, ih]

theorem tzip_self_emap (k : ℝ → ℝ → ℝ) (x : Tensor) :
    tzip k x x = x.map (fun r => r.map (fun v => k v v)) := by
  rw [tzip, zipWith_self_map]
  exact List.map_congr_left (fun r _ => zipWith_self_map k r)

theorem emap_emap (f g : ℝ → ℝ) (x : Tensor) :
    (x.emap f).emap g = x.emap (fun v => g (f v)) := by
  simp [Tensor.emap, List.map_map, Function.comp]

theorem emap_congr {f g : ℝ → ℝ} {D : ℝ → Prop} {x : Tensor}
    (hx : ElemDom D x) (h : ∀ v, D v → f v = g v) : x.emap f = x.emap g := by
  refine List.map_congr_left (fun r hr => List.map_congr_left (fun v hv => ?_))
  exact h v (hx r hr v hv)

theorem emap_id {f : ℝ → ℝ} {D : ℝ → Prop} {x : Tensor}
    (hx : ElemDom D x) (h : ∀ v, D v → f v = v) : x.emap f = x := by
  have h1 : x.emap f = x.emap (fun v => v) := emap_congr hx h
  simpa [Tensor.emap] using h1

theorem shapeL_emap (f : ℝ → ℝ) (x : Tensor) : shapeL (x.emap f) = shapeL x := by
  simp [shapeL, Tensor.emap, List.map_map, Function.comp]

theorem length_emap (f : ℝ → ℝ) (x : Tensor) : (x.emap f).length = x.length := by
  simp [Tensor.emap]

theorem headD_length_emap (f : ℝ → ℝ) (x : Tensor) :
    ((x.emap f).headD []).length = (x.headD []).length := by
  cases x with
  | nil => rfl
  | cons r t => simp [Tensor.emap]

theorem elemDom_emap {D D' : ℝ → Prop} {f : ℝ → ℝ} {x : Tensor}
    (hx : ElemDom D x) (h : ∀ v, D v → D' (f v)) : ElemDom D' (x.emap f) := by
  intro r hr v hv
  simp only [Tensor.emap, List.mem_map] at hr
  obtain ⟨r0, hr0, rfl⟩ := hr
  simp only [List.mem_map] at hv
  obtain ⟨v0, hv0, rfl⟩ := hv
  exact h v0 (hx r0 hr0 v0 hv0)

theorem negT_emap (j : ℝ → ℝ) (x : Tensor) :
    Tensor.negT (x.emap j) = x.emap (fun v => -(j v)) := by
  rw [Tensor.negT, emap_emap]

/-! ### LogD algebra -/

theorem LogD.zero_add (l : LogD) : LogD.scalar 0 + l = l := by
  show LogD.add (LogD.scalar 0) l = l
  cases l with
  | scalar a => simp [LogD.add]
  | perBatch v => simp [LogD.add]
  | perElem t => simp [LogD.add]
  | err => rfl

theorem LogD.neg_smul_two (l : LogD) : LogD.neg (LogD.smul 2 l) = LogD.smul (-2) l := by
  cases l with
  | scalar a => simp [LogD.neg, LogD.smul]
  | perBatch v =>
      simp only [LogD.neg, LogD.smul, List.map_map]
      refine congrArg _ (List.map_congr_left (fun a _ => ?_))
      simp [Function.comp]
  | perElem t =>
      simp only [LogD.neg, LogD.smul, Tensor.negT, Tensor.emap, List.map_map]
      refine congrArg _ (List.map_congr_left (fun r _ => ?_))
      simp only [Function.comp, List.map_map]
      refine List.map_congr_left (fun a _ => ?_)
      simp [Function.comp]
  | err => rfl

theorem zipWith_add_cancel (v w : List ℝ) (h : v.length = w.length) :
    List.zipWith (· + ·) (List.zipWith (· + ·) v w) (w.map (fun c => -c)) = v := by
  induction v generalizing w with
  | nil => cases w <;> rfl
  | cons a t ih =>
      cases w with
      | nil => simp at h
      | cons b s =>
          simp only [List.length_cons, Nat.succ_inj] at h
          simp [ih s h]

theorem zipWith_add_neg_zero (w : List ℝ) :
    ∀ c ∈ List.zipWith (· + ·) w (w.map (fun c => -c)), c = 0 := by
  induction w with
  | nil => intro c hc; simp at hc
  | cons a t ih =>
      intro c hc
      simp only [List.map_cons, List.zipWith_cons_cons, List.mem_cons] at hc
      rcases hc with h | h
      · simp [h]
      · exact ih c h

theorem shapeL_cons {α : Type} (r : List α) (t : List (List α)) :
    shapeL (r :: t) = r.length :: shapeL t := rfl

theorem add2_cancel (s t : Tensor) (h : shapeL s = shapeL t) :
    Tensor.add2 (Tensor.add2 s t) (Tensor.negT t) = s := by
  induction s generalizing t with
  | nil => cases t <;> rfl
  | cons r rs ih =>
      cases t with
      | nil => simp [shapeL] at h
      | cons q qs =>
          simp only [shapeL_cons, List.cons.injEq] at h
          simp only [Tensor.add2, tzip, Tensor.negT, Tensor.emap, List.map_cons,
            List.zipWith_cons_cons, List.cons.injEq]
          exact ⟨zipWith_add_cancel r q h.1, ih qs h.2⟩

theorem add2_neg_zero (t : Tensor) : IsZeroT (Tensor.add2 t (Tensor.negT t)) := by
  induction t with
  | nil => intro r hr; simp [Tensor.add2, tzip] at hr
  | cons q qs ih =>
      intro r hr
      simp only [Tensor.add2, tzip, Tensor.negT, Tensor.emap, List.map_cons,
        List.zipWith_cons_cons, List.mem_cons] at hr
      rcases hr with h | h
      · subst h; exact zipWith_add_neg_zero q
      · exact ih r h

theorem length_zipWith_add (v w : List ℝ) (h : v.length = w.length) :
    (List.zipWith (· + ·) v w).length = v.length := by
  simp [List.length_zipWith, h]

theorem shapeL_add2 (s t : Tensor) (h : shapeL s = shapeL t) :
    shapeL (Tensor.add2 s t) = shapeL s := by
  induction s generalizing t with
  | nil => rfl
  | cons r rs ih =>
      cases t with
      | nil => simp [shapeL] at h
      | cons q qs =>
          simp only [shapeL_cons, List.cons.injEq] at h
          simp only [Tensor.add2, tzip, List.zipWith_cons_cons, shapeL_cons,
            List.cons.injEq]
          refine ⟨by simp [List.length_zipWith, h.1], ih qs h.2⟩

theorem LogD.add_cancel {pd : Bool} {L J : LogD} {x y : Tensor}
    (hL : KindOK pd L x) (hJ : KindOK pd J y) (hxy : shapeL x = shapeL y) :
    (L + J) + LogD.neg J = L := by
  cases pd with
  | false =>
      cases L with
      | perBatch v =>
          cases J with
          | perBatch w =>
              have hlen : v.length = w.length := by
                have h1 : x.length = y.length := by
                  have := congrArg List.length hxy
                  simpa [shapeL] using this
                simp only [KindOK] at hL hJ
                omega
              show LogD.add (LogD.add (LogD.perBatch v) (LogD.perBatch w))
                (LogD.neg (LogD.perBatch w)) = LogD.perBatch v
              simp only [LogD.add, hlen, if_true, LogD.neg]
              rw [if_pos, zipWith_add_cancel v w hlen]
              simp [List.length_zipWith, hlen]
          | scalar a => simp [KindOK] at hJ
          | perElem t => simp [KindOK] at hJ
          | err => simp [KindOK] at hJ
      | scalar a => simp [KindOK] at hL
      | perElem t => simp [KindOK] at hL
      | err => simp [KindOK] at hL
  | true =>
      cases L with
      | perElem s =>
          cases J with
          | perElem t =>
              have hst : shapeL s = shapeL t := by
                simp only [KindOK] at hL hJ
                rw [hL, hxy, ← hJ]
              show LogD.add (LogD.add (LogD.perElem s) (LogD.perElem t))
                (LogD.neg (LogD.perElem t)) = LogD.perElem s
              simp only [LogD.add, hst, if_true, LogD.neg]
              rw [if_pos, add2_cancel s t hst]
              · rw [shapeL_add2 s t hst, hst]
                simp [shapeL, Tensor.negT, Tensor.emap, List.map_map, Function.comp]
          | scalar a => simp [KindOK] at hJ
          | perBatch v => simp [KindOK] at hJ
          | err => simp [KindOK] at hJ
      | scalar a => simp [KindOK] at hL
      | perBatch v => simp [KindOK] at hL
      | err => simp [KindOK] at hL

theorem LogD.add_neg_isZero {pd : Bool} {J : LogD} {y : Tensor}
    (hJ : KindOK pd J y) : (J + LogD.neg J).IsZero := by
  cases pd with
  | false =>
      cases J with
      | perBatch w =>
          show (LogD.add (LogD.perBatch w) (LogD.neg (LogD.perBatch w))).IsZero
          simp only [LogD.neg, LogD.add, List.length_map, if_true]
          exact zipWith_add_neg_zero w
      | scalar a => simp [KindOK] at hJ
      | perElem t => simp [KindOK] at hJ
      | err => simp [KindOK] at hJ
  | true =>
      cases J with
      | perElem t =>
          show (LogD.add (LogD.perElem t) (LogD.neg (LogD.perElem t))).IsZero
          simp only [LogD.neg, LogD.add]
          rw [if_pos]
          · exact add2_neg_zero t
          · simp [shapeL, Tensor.negT, Tensor.emap, List.map_map, Function.comp]
      | scalar a => simp [KindOK] at hJ
      | perBatch v => simp [KindOK] at hJ
      | err => simp [KindOK] at hJ

/-! ### Scalar inverse identities -/

theorem expit_pos (v : ℝ) : 0 < expit v := by
  unfold expit
  positivity

theorem one_add_exp_pos (v : ℝ) : 0 < 1 + Real.exp v := by positivity

theorem expit_lt_one (v : ℝ) : expit v < 1 := by
  unfold expit
  rw [div_lt_one (one_add_exp_pos _)]
  linarith [Real.exp_pos (-v)]

theorem one_sub_expit (v : ℝ) :
    1 - expit v = Real.exp (-v) / (1 + Real.exp (-v)) := by
  unfold expit
  field_simp

theorem expit_div_one_sub (v : ℝ) : expit v / (1 - expit v) = Real.exp v := by
  rw [one_sub_expit]
  unfold expit
  rw [div_div_div_cancel_right₀]
  · rw [one_div, ← Real.exp_neg, neg_neg]
  · exact ne_of_gt (one_add_exp_pos _)

theorem logit_expit (v : ℝ) : Real.log (expit v / (1 - expit v)) = v := by
  rw [expit_div_one_sub, Real.log_exp]

theorem log_expit (v : ℝ) : Real.log (expit v) = -Real.log (1 + Real.exp (-v)) := by
  unfold expit
  rw [one_div, Real.log_inv]

theorem jl_expit (v : ℝ) :
    Real.log (expit v * (1 - expit v)) = -v + 2 * Real.log (expit v) := by
  have h1 : expit v ≠ 0 := ne_of_gt (expit_pos v)
  have h2 : 1 - expit v ≠ 0 := by
    have := expit_lt_one v
    intro h
    apply absurd this
    simp
    linarith
  rw [Real.log_mul h1 h2, one_sub_expit,
    Real.log_div (ne_of_gt (Real.exp_pos _)) (ne_of_gt (one_add_exp_pos _)),
    Real.log_exp, log_expit]
  ring

theorem expit_logit {v : ℝ} (h0 : 0 < v) (h1 : v < 1) :
    expit (Real.log (v / (1 - v))) = v := by
  have hv1 : 0 < 1 - v := by linarith
  have hq : 0 < v / (1 - v) := div_pos h0 hv1
  unfold expit
  rw [← Real.log_inv, Real.exp_log (by positivity), inv_div]
  field_simp

theorem jE_logit {v : ℝ} (h0 : 0 < v) (h1 : v < 1) :
    -(Real.log (v / (1 - v))) + 2 * Real.log (expit (Real.log (v / (1 - v)))) =
      Real.log (v * (1 - v)) := by
  have hv1 : 0 < 1 - v := by linarith
  rw [expit_logit h0 h1, Real.log_div (ne_of_gt h0) (ne_of_gt hv1),
    Real.log_mul (ne_of_gt h0) (ne_of_gt hv1)]
  ring

theorem atanh_tanh (v : ℝ) : torchAtanh (Real.tanh v) = v := by
  have hc : 0 < Real.cosh v := Real.cosh_pos v
  have h1 : 1 + Real.tanh v = Real.exp v / Real.cosh v := by
    rw [Real.tanh_eq_sinh_div_cosh, ← Real.cosh_add_sinh]
    field_simp
  have h2 : 1 - Real.tanh v = Real.exp (-v) / Real.cosh v := by
    rw [Real.tanh_eq_sinh_div_cosh, ← Real.cosh_sub_sinh]
    field_simp
  unfold torchAtanh
  rw [h1, h2, div_div_div_cancel_right₀]
  · rw [← Real.exp_sub, Real.log_exp]
    ring
  · exact ne_of_gt hc

theorem tanh_atanh {v : ℝ} (h : |v| < 1) : Real.tanh (torchAtanh v) = v := by
  have h1 : 0 < 1 - v := by
    have := (abs_lt.mp h).2
    linarith
  have h2 : 0 < 1 + v := by
    have := (abs_lt.mp h).1
    linarith
  have hu : 0 < (1 + v) / (1 - v) := div_pos h2 h1
  set t := torchAtanh v with ht
  have hw : 0 < Real.exp t := Real.exp_pos t
  have hw2 : Real.exp t ^ 2 = (1 + v) / (1 - v) := by
    rw [sq, ← Real.exp_add, ht, torchAtanh]
    rw [show Real.log ((1 + v) / (1 - v)) / 2 + Real.log ((1 + v) / (1 - v)) / 2 =
      Real.log ((1 + v) / (1 - v)) by ring]
    exact Real.exp_log hu
  have hw2' : Real.exp t ^ 2 * (1 - v) = 1 + v := by
    rw [hw2]
    field_simp
  rw [Real.tanh_eq_sinh_div_cosh, Real.sinh_eq, Real.cosh_eq, Real.exp_neg]
  have hne : Real.exp t + (Real.exp t)⁻¹ ≠ 0 := by positivity
  field_simp
  nlinarith [hw2']

theorem sgnbias_inv (w v : ℝ) :
    (v + Real.sign v * w ^ 2) - Real.sign (v + Real.sign v * w ^ 2) * w ^ 2 = v := by
  have hw : 0 ≤ w ^ 2 := sq_nonneg w
  rcases lt_trichotomy v 0 with hv | hv | hv
  · rw [Real.sign_of_neg hv]
    have : v + (-1) * w ^ 2 < 0 := by nlinarith
    rw [Real.sign_of_neg this]
    ring
  · subst hv
    simp [Real.sign_zero]
  · rw [Real.sign_of_pos hv]
    have : 0 < v + 1 * w ^ 2 := by nlinarith
    rw [Real.sign_of_pos this]
    ring

/-! ### Density-kind bookkeeping -/

theorem listSum_neg (r : List ℝ) : (r.map (fun v => -v)).sum = -r.sum := by
  induction r with
  | nil => simp
  | cons a t ih => simp [ih]; ring

theorem sum_density_neg (pd : Bool) (t : Tensor) :
    Module_.sum_density pd (Tensor.negT t) = LogD.neg (Module_.sum_density pd t) := by
  cases pd with
  | true => rfl
  | false =>
      simp only [Module_.sum_density, Bool.false_eq_true, if_false, LogD.neg,
        Tensor.negT, Tensor.emap, List.map_map]
      refine congrArg _ (List.map_congr_left (fun r _ => ?_))
      simpa [Function.comp] using listSum_neg r

theorem length_shapeL {α : Type} (t : List (List α)) : (shapeL t).length = t.length := by
  simp [shapeL]

theorem kindOK_sum_density {pd : Bool} {t x : Tensor} (h : shapeL t = shapeL x) :
    KindOK pd (Module_.sum_density pd t) x := by
  cases pd with
  | true => simpa [Module_.sum_density, KindOK] using h
  | false =>
      simp only [Module_.sum_density, Bool.false_eq_true, if_false, KindOK,
        List.length_map]
      have := congrArg List.length h
      simpa [shapeL] using this

theorem kindOK_shape {pd : Bool} {J : LogD} {x y : Tensor}
    (h : KindOK pd J x) (hxy : shapeL x = shapeL y) : KindOK pd J y := by
  have hlen : x.length = y.length := by
    have := congrArg List.length hxy
    simpa [shapeL] using this
  cases pd <;> cases J <;> simp_all [KindOK]

theorem shapeL_negT (t : Tensor) : shapeL (Tensor.negT t) = shapeL t :=
  shapeL_emap _ t

theorem kindOK_neg {pd : Bool} {J : LogD} {x : Tensor}
    (h : KindOK pd J x) : KindOK pd (LogD.neg J) x := by
  cases pd with
  | false =>
      cases J with
      | perBatch v => simpa [KindOK, LogD.neg] using h
      | scalar a => simp [KindOK] at h
      | perElem t => simp [KindOK] at h
      | err => simp [KindOK] at h
  | true =>
      cases J with
      | perElem t =>
          show KindOK true (LogD.perElem (Tensor.negT t)) x
          simpa [KindOK, shapeL_negT] using h
      | scalar a => simp [KindOK] at h
      | perBatch v => simp [KindOK] at h
      | err => simp [KindOK] at h

theorem kindOK_add {pd : Bool} {L J : LogD} {x : Tensor}
    (hL : KindOK pd L x) (hJ : KindOK pd J x) : KindOK pd (L + J) x := by
  cases pd with
  | false =>
      cases L with
      | perBatch v =>
          cases J with
          | perBatch w =>
              simp only [KindOK] at hL hJ
              show KindOK false (LogD.add (LogD.perBatch v) (LogD.perBatch w)) x
              simp only [LogD.add, hL, hJ, if_true]
              simp [KindOK, List.length_zipWith, hL, hJ]
          | scalar a => simp [KindOK] at hJ
          | perElem t => simp [KindOK] at hJ
          | err => simp [KindOK] at hJ
      | scalar a => simp [KindOK] at hL
      | perElem t => simp [KindOK] at hL
      | err => simp [KindOK] at hL
  | true =>
      cases L with
      | perElem s =>
          cases J with
          | perElem t =>
              simp only [KindOK] at hL hJ
              show KindOK true (LogD.add (LogD.perElem s) (LogD.perElem t)) x
              have hst : shapeL s = shapeL t := by rw [hL, hJ]
              simp only [LogD.add, hst, if_true]
              simpa [KindOK, shapeL_add2 s t hst] using hL
          | scalar a => simp [KindOK] at hJ
          | perBatch v => simp [KindOK] at hJ
          | err => simp [KindOK] at hJ
      | scalar a => simp [KindOK] at hL
      | perBatch v => simp [KindOK] at hL
      | err => simp [KindOK] at hL

/-! ### Generic elementwise stage -/

theorem StageOK_elemG {fwd bwd : Tensor → LogD → Tensor × LogD} {pd : Bool}
    {f g : ℝ → ℝ} {P Q : Tensor → LogD} {D D' : ℝ → Prop}
    (hfwd : ∀ x L, fwd x L = (x.emap f, L + P x))
    (hbwd : ∀ x L, bwd x L = (x.emap g, L + Q x))
    (hinv : ∀ v, D v → g (f v) = v)
    (hdom : ∀ v, D v → D' (f v))
    (hJcancel : ∀ x, ElemDom D x → Rect x → Q (x.emap f) = LogD.neg (P x))
    (hkindJ : ∀ x, ElemDom D x → Rect x → KindOK pd (P x) x) :
    StageOK fwd bwd pd D D' := by
  have hval : ∀ x, ElemDom D x → (x.emap f).emap g = x := by
    intro x hx
    rw [emap_emap]
    exact emap_id hx hinv
  refine ⟨?_, ?_, ?_, ?_, ?_, ?_⟩
  · intro x L hx hr hL
    rw [hfwd, hbwd, hval x hx, hJcancel x hx hr,
      LogD.add_cancel hL (hkindJ x hx hr) rfl]
  · intro x hx hr
    rw [hfwd, hbwd, hval x hx, hJcancel x hx hr, LogD.zero_add]
    exact ⟨rfl, LogD.add_neg_isZero (hkindJ x hx hr)⟩
  · intro x L hx
    rw [hfwd]
    exact elemDom_emap hx hdom
  · intro x L
    rw [hfwd]
    exact shapeL_emap f x
  · intro x L hx hr hL
    rw [hfwd]
    exact kindOK_shape
      (kindOK_add hL (hkindJ x hx hr)) (shapeL_emap f x).symm
  · intro x hx hr
    refine Or.inr ?_
    rw [hfwd, LogD.zero_add]
    exact kindOK_shape (hkindJ x hx hr) (shapeL_emap f x).symm

/-! ### Canonical elementwise forms of the modules -/

theorem zipWith_map_self {α β : Type} (k : α → α → β) (f : α → α) (r : List α) :
    List.zipWith k r (r.map f) = r.map (fun v => k v (f v)) := by
  rw [List.zipWith_map_right, zipWith_self_map]

theorem tzip_emap_self (k : ℝ → ℝ → ℝ) (f : ℝ → ℝ) (x : Tensor) :
    tzip k x (x.emap f) = x.emap (fun v => k v (f v)) := by
  unfold tzip Tensor.emap
  rw [List.zipWith_map_right, zipWith_self_map]
  exact List.map_congr_left (fun r _ => zipWith_map_self k f r)

theorem Expit_forward_eq (sd : Tensor → LogD) (x : Tensor) (log0 : LogD) :
    Expit_.forward sd x log0 =
      (x.emap expit, log0 + sd (x.emap (fun v => -v + 2 * Real.log (expit v)))) := by
  unfold Expit_.forward
  simp only [tzip_emap_self]

theorem reshapeLike_map (h : ℝ → ℝ) (x : Tensor) :
    reshapeLike x (x.ravel.map h) = x.emap h := by
  induction x with
  | nil => rfl
  | cons r rs ih =>
      show reshapeLike (r :: rs) ((r ++ rs.flatten).map h) = _
      rw [List.map_append]
      simp only [reshapeLike, Tensor.emap, List.map_cons]
      congr 1
      · rw [show r.length = (List.map h r).length by simp, List.take_left]
      · rw [show r.length = (List.map h r).length by simp, List.drop_left]
        simpa [Tensor.ravel, Tensor.emap] using ih

theorem SplineNet_forward_eq (sp : Spline) (spline_shape : List ℕ)
    (sd : Tensor → LogD) (x : Tensor) (log0 : LogD) :
    SplineNet_.forward sp spline_shape sd x log0 =
      (x.emap (fun v => (sp.eval v).1),
        log0 + sd (x.emap (fun v => Real.log (sp.eval v).2))) := by
  unfold SplineNet_.forward
  by_cases h : 0 < spline_shape.length
  · simp only [h, if_true, emap_emap]
  · simp only [h, if_false, List.map_map]
    rw [show Prod.fst ∘ sp.eval = fun v => (sp.eval v).1 from rfl,
      show Prod.snd ∘ sp.eval = fun v => (sp.eval v).2 from rfl,
      reshapeLike_map, reshapeLike_map, emap_emap]

theorem SplineNet_backward_eq (sp : Spline) (spline_shape : List ℕ)
    (sd : Tensor → LogD) (x : Tensor) (log0 : LogD) :
    SplineNet_.backward sp spline_shape sd x log0 =
      (x.emap (fun v => (sp.evalInv v).1),
        log0 + sd (x.emap (fun v => Real.log (sp.evalInv v).2))) := by
  unfold SplineNet_.backward
  by_cases h : 0 < spline_shape.length
  · simp only [h, if_true, emap_emap]
  · simp only [h, if_false, List.map_map]
    rw [show Prod.fst ∘ sp.evalInv = fun v => (sp.evalInv v).1 from rfl,
      show Prod.snd ∘ sp.evalInv = fun v => (sp.evalInv v).2 from rfl,
      reshapeLike_map, reshapeLike_map, emap_emap]

/-! ### Stage lemmas -/

theorem LogD.neg_neg (l : LogD) : LogD.neg (LogD.neg l) = l := by
  cases l with
  | scalar a => simp [LogD.neg]
  | perBatch v => simp [LogD.neg, List.map_map, Function.comp]
  | perElem t =>
      simp only [LogD.neg, Tensor.negT, emap_emap, neg_neg]
      congr 1
      simp [Tensor.emap]
  | err => rfl

theorem rect_transport {x y : Tensor} (h : shapeL y = shapeL x) (hx : Rect x) :
    Rect y := by
  unfold Rect at hx ⊢
  rw [h]
  exact hx

theorem headD_shapeL (x : Tensor) : (shapeL x).headD 0 = (x.headD []).length := by
  cases x <;> rfl

theorem rect_shapeL_replicate {x : Tensor} (hx : Rect x) :
    shapeL x = List.replicate x.length ((x.headD []).length) := by
  refine List.eq_replicate_iff.mpr ⟨by simp [shapeL], fun b hb => ?_⟩
  rw [← headD_shapeL]
  exact hx b hb

theorem kindOK_scale_LJ {pd : Bool} {logw : ℝ} {x : Tensor} (hx : Rect x) :
    KindOK pd (ScaleNet_.log_jacobian pd logw x.length (x.headD []).length) x := by
  cases pd with
  | true =>
      show KindOK true (LogD.perElem
        (List.replicate x.length (List.replicate ((x.headD []).length) logw))) x
      simp only [KindOK, shapeL, List.map_replicate, List.length_replicate]
      rw [← shapeL, rect_shapeL_replicate hx]
  | false =>
      show KindOK false (LogD.perBatch
        (List.replicate x.length (logw * ((x.headD []).length : ℕ)))) x
      simp [KindOK]

theorem LogD.sub_eq (a b : LogD) : a - b = LogD.add a (LogD.neg b) := rfl

theorem stage_scale (pd : Bool) (logw : ℝ) :
    StageOK (ScaleNet_.forward pd logw) (ScaleNet_.backward pd logw) pd allR allR := by
  refine StageOK_elemG (f := fun v => v * Real.exp logw)
    (g := fun v => v / Real.exp logw)
    (P := fun x => ScaleNet_.log_jacobian pd logw x.length ((x.headD []).length))
    (Q := fun x =>
      LogD.neg (ScaleNet_.log_jacobian pd logw x.length ((x.headD []).length)))
    (fun x L => rfl) (fun x L => rfl)
    (fun v _ => mul_div_cancel_right₀ v (Real.exp_ne_zero logw))
    (fun v _ => trivial) ?_ ?_
  · intro x _ _
    dsimp only
    rw [length_emap, headD_length_emap]
  · intro x _ hr
    exact kindOK_scale_LJ hr

theorem stage_sgnbias (pd : Bool) (w : ℝ) :
    StageOK (SgnBiasNet_.forward w) (SgnBiasNet_.backward w) pd allR allR := by
  have hval : ∀ x : Tensor,
      (x.emap (fun v => v + Real.sign v * w ^ 2)).emap
        (fun v => v - Real.sign v * w ^ 2) = x := by
    intro x
    rw [emap_emap]
    refine emap_id (D := allR) (fun r _ v _ => trivial) (fun v _ => sgnbias_inv w v)
  refine ⟨?_, ?_, ?_, ?_, ?_, ?_⟩
  · intro x L _ _ _
    unfold SgnBiasNet_.forward SgnBiasNet_.backward
    rw [hval]
  · intro x _ _
    unfold SgnBiasNet_.forward SgnBiasNet_.backward
    rw [hval]
    exact ⟨rfl, rfl⟩
  · intro x L _ r hr v hv
    trivial
  · intro x L
    exact shapeL_emap _ x
  · intro x L _ _ hL
    exact kindOK_shape hL (shapeL_emap _ x).symm
  · intro x _ _
    refine Or.inl ⟨rfl, fun M => ?_⟩
    unfold SgnBiasNet_.forward SgnBiasNet_.backward
    rw [hval]

theorem stage_expit (pd : Bool) :
    StageOK (Expit_.forward (Module_.sum_density pd)) (Expit_.backward pd) pd
      allR unitOO := by
  refine StageOK_elemG (f := expit) (g := fun v => Real.log (v / (1 - v)))
    (P := fun x =>
      Module_.sum_density pd (x.emap (fun v => -v + 2 * Real.log (expit v))))
    (Q := fun x =>
      LogD.neg (Module_.sum_density pd (x.emap (fun v => Real.log (v * (1 - v))))))
    (Expit_forward_eq _) (fun x L => rfl) (fun v _ => logit_expit v)
    (fun v _ => ⟨expit_pos v, expit_lt_one v⟩) ?_ ?_
  · intro x _ _
    dsimp only
    rw [emap_emap,
      show (fun v => Real.log (expit v * (1 - expit v))) =
        (fun v => -v + 2 * Real.log (expit v)) from funext jl_expit]
  · intro x _ _
    exact kindOK_sum_density (shapeL_emap _ x)

theorem stage_logit (pd : Bool) :
    StageOK (Logit_.forward (Module_.sum_density pd)) (Logit_.backward pd) pd
      unitOO allR := by
  refine StageOK_elemG (f := fun v => Real.log (v / (1 - v))) (g := expit)
    (P := fun x =>
      LogD.neg (Module_.sum_density pd (x.emap (fun v => Real.log (v * (1 - v))))))
    (Q := fun x =>
      Module_.sum_density pd (x.emap (fun v => -v + 2 * Real.log (expit v))))
    (fun x L => rfl) (fun x L => Expit_forward_eq _ x L)
    (fun v hv => expit_logit hv.1 hv.2) (fun v _ => trivial) ?_ ?_
  · intro x hx _
    dsimp only
    rw [emap_emap, LogD.neg_neg]
    congr 1
    exact emap_congr hx (fun v hv => jE_logit hv.1 hv.2)
  · intro x _ _
    exact kindOK_neg (kindOK_sum_density (shapeL_emap _ x))

theorem stage_spline (pd : Bool) (sp : Spline) (spline_shape : List ℕ)
    (D D' : ℝ → Prop)
    (hc : SplineInverts sp D) (hm : SplineMapsInto sp D D') :
    StageOK (SplineNet_.forward sp spline_shape (Module_.sum_density pd))
      (SplineNet_.backward sp spline_shape (Module_.sum_density pd)) pd D D' := by
  refine StageOK_elemG (f := fun v => (sp.eval v).1) (g := fun v => (sp.evalInv v).1)
    (P := fun x =>
      Module_.sum_density pd (x.emap (fun v => Real.log (sp.eval v).2)))
    (Q := fun x =>
      Module_.sum_density pd (x.emap (fun v => Real.log (sp.evalInv v).2)))
    (SplineNet_forward_eq sp spline_shape _) (SplineNet_backward_eq sp spline_shape _)
    (fun v hv => (hc v hv).1) hm ?_ ?_
  · intro x hx _
    dsimp only
    rw [emap_emap, ← sum_density_neg, negT_emap]
    congr 1
    refine emap_congr hx (fun v hv => ?_)
    obtain ⟨-, hmul, hpos⟩ := hc v hv
    have hinv : (sp.evalInv (sp.eval v).1).2 = ((sp.eval v).2)⁻¹ :=
      eq_inv_of_mul_eq_one_left hmul
    rw [hinv, Real.log_inv]
  · intro x _ _
    exact kindOK_sum_density (shapeL_emap _ x)

/-! ### Pipeline round trips -/

theorem MLf_cons (step : Net → Tensor → LogD → Tensor × LogD) (n : Net)
    (rest : List Net) (x : Tensor) (L : LogD) :
    ModuleList_.forward step (n :: rest) x L =
      ModuleList_.forward step rest (step n x L).1 (step n x L).2 := by
  unfold ModuleList_.forward
  simp

theorem MLb_cons (step : Net → Tensor → LogD → Tensor × LogD) (n : Net)
    (rest : List Net) (z : Tensor) (M : LogD) :
    ModuleList_.backward step (n :: rest) z M =
      step n (ModuleList_.backward step rest z M).1
        (ModuleList_.backward step rest z M).2 := by
  unfold ModuleList_.backward
  rw [List.reverse_cons, List.foldl_append]
  simp

theorem chain_rt {pd : Bool} {sp : Spline} {nets : List Net} {D D' : ℝ → Prop}
    (hc : Chain pd sp nets D D') :
    ∀ x L, ElemDom D x → Rect x → KindOK pd L x →
      ModuleList_.backward (Net.backward pd sp) nets
        (ModuleList_.forward (Net.forward pd sp) nets x L).1
        (ModuleList_.forward (Net.forward pd sp) nets x L).2 = (x, L) := by
  induction hc with
  | nil D => intro x L _ _ _; rfl
  | cons n rest D D' D'' hstage hchain ih =>
      intro x L hx hr hL
      rw [MLf_cons, MLb_cons]
      rw [ih (Net.forward pd sp n x L).1 (Net.forward pd sp n x L).2
        (hstage.dom x L hx) (rect_transport (hstage.shp x L) hr)
        (hstage.kind x L hx hr hL)]
      exact hstage.rt x L hx hr hL

theorem chain_rt0 {pd : Bool} {sp : Spline} {nets : List Net} {D D' : ℝ → Prop}
    (hc : Chain pd sp nets D D') :
    ∀ x, ElemDom D x → Rect x →
      RoundTrip0 (ModuleList_.forward (Net.forward pd sp) nets)
        (ModuleList_.backward (Net.backward pd sp) nets) x := by
  induction hc with
  | nil D => intro x _ _; exact ⟨rfl, rfl⟩
  | cons n rest D D' D'' hstage hchain ih =>
      intro x hx hr
      have hx1 : ElemDom D' (Net.forward pd sp n x (LogD.scalar 0)).1 :=
        hstage.dom x (LogD.scalar 0) hx
      have hr1 : Rect (Net.forward pd sp n x (LogD.scalar 0)).1 :=
        rect_transport (hstage.shp x (LogD.scalar 0)) hr
      unfold RoundTrip0
      rw [MLf_cons, MLb_cons]
      rcases hstage.zcase x hx hr with ⟨hz, hpass⟩ | hkind
      · rw [hz]
        obtain ⟨hv, hz2⟩ := ih (Net.forward pd sp n x (LogD.scalar 0)).1 hx1 hr1
        set q := ModuleList_.backward (Net.backward pd sp) rest
          (ModuleList_.forward (Net.forward pd sp) rest
            (Net.forward pd sp n x (LogD.scalar 0)).1 (LogD.scalar 0)).1
          (ModuleList_.forward (Net.forward pd sp) rest
            (Net.forward pd sp n x (LogD.scalar 0)).1 (LogD.scalar 0)).2 with hq
        rw [hv, hpass q.2]
        exact ⟨rfl, hz2⟩
      · rw [chain_rt hchain (Net.forward pd sp n x (LogD.scalar 0)).1
          (Net.forward pd sp n x (LogD.scalar 0)).2 hx1 hr1 hkind]
        exact hstage.rt0 x hx hr

theorem kindOK_smul {pd : Bool} {c : ℝ} {J : LogD} {x : Tensor}
    (h : KindOK pd J x) : KindOK pd (LogD.smul c J) x := by
  cases pd with
  | false =>
      cases J with
      | perBatch v => simpa [KindOK, LogD.smul] using h
      | scalar a => simp [KindOK] at h
      | perElem t => simp [KindOK] at h
      | err => simp [KindOK] at h
  | true =>
      cases J with
      | perElem t =>
          show KindOK true (LogD.perElem (t.emap (fun a => c * a))) x
          simpa [KindOK, shapeL_emap] using h
      | scalar a => simp [KindOK] at h
      | perBatch v => simp [KindOK] at h
      | err => simp [KindOK] at h

theorem chain_nets (pd : Bool) (sp : Spline) (knots_len : ℕ)
    (symmetric sgnbias initial_scale final_scale : Bool) (logw w : ℝ)
    (hc : SplineInverts sp unitOO) (hm : SplineMapsInto sp unitOO unitOO) :
    Chain pd sp
      (DistConvertor_.nets_ knots_len symmetric sgnbias initial_scale final_scale
        logw w) allR allR := by
  have c0 : ∀ extra, Chain pd sp
      [Net.expit "expit_", Net.spline "spline_" knots_len extra,
        Net.logit "logit_"] allR allR := fun extra =>
    Chain.cons _ _ allR unitOO allR (stage_expit pd)
      (Chain.cons _ _ unitOO unitOO allR (stage_spline pd sp [] unitOO unitOO hc hm)
        (Chain.cons _ _ unitOO allR allR (stage_logit pd) (Chain.nil allR)))
  unfold DistConvertor_.nets_
  have c1 : Chain pd sp
      (if 1 < knots_len then
        [Net.expit "expit_",
          Net.spline "spline_" knots_len
            (if symmetric then ⟨(0.5, 1), (0.5, 1), true⟩
              else ⟨(0, 1), (0, 1), false⟩),
          Net.logit "logit_"]
      else []) allR allR := by
    by_cases hk : 1 < knots_len
    · simpa [hk] using c0 _
    · simpa [hk] using (Chain.nil allR : Chain pd sp [] allR allR)
  have c2 : Chain pd sp
      ((if 1 < knots_len then
        [Net.expit "expit_",
          Net.spline "spline_" knots_len
            (if symmetric then ⟨(0.5, 1), (0.5, 1), true⟩
              else ⟨(0, 1), (0, 1), false⟩),
          Net.logit "logit_"]
      else []) ++ [Net.scale "scale_" logw]) allR allR := by
    by_cases hk : 1 < knots_len
    · simp only [hk, if_true, List.cons_append, List.nil_append]
      exact Chain.cons _ _ allR unitOO allR (stage_expit pd)
        (Chain.cons _ _ unitOO unitOO allR
          (stage_spline pd sp [] unitOO unitOO hc hm)
          (Chain.cons _ _ unitOO allR allR (stage_logit pd)
            (Chain.cons _ _ allR allR allR (stage_scale pd logw)
              (Chain.nil allR))))
    · simp only [hk, if_false, List.nil_append]
      exact Chain.cons _ _ allR allR allR (stage_scale pd logw) (Chain.nil allR)
  cases sgnbias with
  | false =>
      cases initial_scale with
      | false =>
          cases final_scale with
          | false => simpa using c1
          | true => simpa using c2
      | true =>
          simpa using Chain.cons (Net.scale "scale_" logw) _ allR allR allR
            (stage_scale pd logw) c1
  | true =>
      cases initial_scale with
      | false =>
          cases final_scale with
          | false =>
              simpa using Chain.cons (Net.sgnbias "sgnbias_" w) _ allR allR allR
                (stage_sgnbias pd w) c1
          | true =>
              simpa using Chain.cons (Net.sgnbias "sgnbias_" w) _ allR allR allR
                (stage_sgnbias pd w) c2
      | true =>
          simpa using Chain.cons (Net.sgnbias "sgnbias_" w) _ allR allR allR
            (stage_sgnbias pd w)
            (Chain.cons (Net.scale "scale_" logw) _ allR allR allR
              (stage_scale pd logw) c1)

/-! ### Standalone round trips -/

theorem elemDom_allR (x : Tensor) : ElemDom allR x := fun _ _ _ _ => trivial

theorem rt_identity (x : Tensor) :
    RoundTrip0 Identity_.forward Identity_.backward x := ⟨rfl, rfl⟩

theorem rt_clone (x : Tensor) :
    RoundTrip0 Clone_.forward Clone_.backward x := ⟨rfl, rfl⟩

theorem rt_scale (pd : Bool) (logw : ℝ) (x : Tensor) (hr : Rect x) :
    RoundTrip0 (ScaleNet_.forward pd logw) (ScaleNet_.backward pd logw) x :=
  (stage_scale pd logw).rt0 x (elemDom_allR x) hr

theorem rt_sgnbias (pd : Bool) (w : ℝ) (x : Tensor) (hr : Rect x) :
    RoundTrip0 (SgnBiasNet_.forward w) (SgnBiasNet_.backward w) x :=
  (stage_sgnbias pd w).rt0 x (elemDom_allR x) hr

theorem rt_expit (pd : Bool) (x : Tensor) (hr : Rect x) :
    RoundTrip0 (Expit_.forward (Module_.sum_density pd)) (Expit_.backward pd) x :=
  (stage_expit pd).rt0 x (elemDom_allR x) hr

theorem rt_logit (pd : Bool) (x : Tensor) (hr : Rect x)
    (hx : ElemDom unitOO x) :
    RoundTrip0 (Logit_.forward (Module_.sum_density pd)) (Logit_.backward pd) x :=
  (stage_logit pd).rt0 x hx hr

theorem rt_spline (pd : Bool) (sp : Spline) (spline_shape : List ℕ)
    (D : ℝ → Prop) (hcon : SplineInverts sp D) (x : Tensor) (hr : Rect x)
    (hx : ElemDom D x) :
    RoundTrip0 (SplineNet_.forward sp spline_shape (Module_.sum_density pd))
      (SplineNet_.backward sp spline_shape (Module_.sum_density pd)) x :=
  (stage_spline pd sp spline_shape D allR hcon (fun _ _ => trivial)).rt0 x hx hr

theorem rt_tanh (pd : Bool) (x : Tensor) :
    RoundTrip0 (Tanh_.forward (Module_.sum_density pd)) (Tanh_.backward pd) x := by
  have hval : (x.emap Real.tanh).emap torchAtanh = x := by
    rw [emap_emap]
    exact emap_id (elemDom_allR x) (fun v _ => atanh_tanh v)
  unfold RoundTrip0 Tanh_.forward Tanh_.backward ArcTanh_.forward
  dsimp only
  rw [hval, LogD.zero_add]
  refine ⟨rfl, ?_⟩
  rw [show LogD.smul 2 (Module_.sum_density pd
        (x.emap (fun v => Real.log (Real.cosh v)))) =
      LogD.neg (LogD.smul (-2) (Module_.sum_density pd
        (x.emap (fun v => Real.log (Real.cosh v))))) by
    rw [← LogD.neg_smul_two, LogD.neg_neg]]
  exact LogD.add_neg_isZero
    (kindOK_smul (kindOK_sum_density (shapeL_emap _ x)))

theorem rt_arctanh (pd : Bool) (x : Tensor)
    (hx : ElemDom (fun v => |v| < 1) x) :
    RoundTrip0 (ArcTanh_.forward (Module_.sum_density pd)) (ArcTanh_.backward pd) x := by
  have hval : (x.emap torchAtanh).emap Real.tanh = x := by
    rw [emap_emap]
    exact emap_id hx (fun v hv => tanh_atanh hv)
  unfold RoundTrip0 ArcTanh_.forward ArcTanh_.backward Tanh_.forward
  dsimp only
  rw [hval, LogD.zero_add]
  refine ⟨rfl, ?_⟩
  rw [← LogD.neg_smul_two]
  exact LogD.add_neg_isZero
    (kindOK_smul (kindOK_sum_density (shapeL_emap _ _)))

theorem rt_distconv (pd : Bool) (sp : Spline) (knots_len : ℕ)
    (symmetric sgnbias initial_scale final_scale : Bool) (logw w : ℝ)
    (hcon : SplineInverts sp unitOO) (hm : SplineMapsInto sp unitOO unitOO)
    (x : Tensor) (hr : Rect x) :
    RoundTrip0
      (DistConvertor_.forward pd sp knots_len symmetric sgnbias initial_scale
        final_scale logw w)
      (DistConvertor_.backward pd sp knots_len symmetric sgnbias initial_scale
        final_scale logw w) x :=
  chain_rt0
    (chain_nets pd sp knots_len symmetric sgnbias initial_scale final_scale
      logw w hcon hm) x (elemDom_allR x) hr

/-! ### Mask zip algebra -/

theorem zipWith_zipWith_same {α β γ δ : Type} (k : α → γ → δ) (k' : α → β → γ)
    (r : List α) (s : List β) :
    List.zipWith k r (List.zipWith k' r s) =
      List.zipWith (fun b v => k b (k' b v)) r s := by
  induction r generalizing s with
  | nil => rfl
  | cons a t ih =>
      cases s with
      | nil => rfl
      | cons b u => simp [ih]

theorem tzip_tzip (k k' : Bool → ℝ → ℝ) (p : List (List Bool)) (x : Tensor) :
    tzip k p (tzip k' p x) = tzip (fun b v => k b (k' b v)) p x := by
  unfold tzip
  rw [zipWith_zipWith_same]
  induction p generalizing x with
  | nil => rfl
  | cons pr pt ih =>
      cases x with
      | nil => rfl
      | cons xr xt =>
          simp only [List.zipWith_cons_cons, List.cons.injEq]
          exact ⟨zipWith_zipWith_same k k' pr xr, ih xt⟩

theorem emap_tzip (f : ℝ → ℝ) (k : Bool → ℝ → ℝ) (p : List (List Bool))
    (x : Tensor) :
    Tensor.emap f (tzip k p x) = tzip (fun b v => f (k b v)) p x := by
  unfold tzip Tensor.emap
  rw [List.map_zipWith]
  induction p generalizing x with
  | nil => rfl
  | cons pr pt ih =>
      cases x with
      | nil => rfl
      | cons xr xt =>
          simp only [List.zipWith_cons_cons, List.cons.injEq]
          exact ⟨by rw [List.map_zipWith], ih xt⟩

theorem zipWith_add_zipWith (k1 k2 : Bool → ℝ → ℝ) (r : List Bool) (s : List ℝ) :
    List.zipWith (· + ·) (List.zipWith k1 r s) (List.zipWith k2 r s) =
      List.zipWith (fun b v => k1 b v + k2 b v) r s := by
  induction r generalizing s with
  | nil => rfl
  | cons a t ih =>
      cases s with
      | nil => rfl
      | cons b u => simp [ih]

theorem add2_tzip_tzip (k1 k2 : Bool → ℝ → ℝ) (p : List (List Bool)) (x : Tensor) :
    Tensor.add2 (tzip k1 p x) (tzip k2 p x) =
      tzip (fun b v => k1 b v + k2 b v) p x := by
  unfold Tensor.add2 tzip
  induction p generalizing x with
  | nil => rfl
  | cons pr pt ih =>
      cases x with
      | nil => rfl
      | cons xr xt =>
          simp only [List.zipWith_cons_cons, List.cons.injEq]
          exact ⟨zipWith_add_zipWith k1 k2 pr xr, ih xt⟩

theorem shapeL_tzip {α β γ : Type} (k : α → β → γ) {p : List (List α)}
    {x : List (List β)} (h : shapeL p = shapeL x) :
    shapeL (tzip k p x) = shapeL x := by
  unfold tzip
  induction p generalizing x with
  | nil => cases x with
      | nil => rfl
      | cons xr xt => simp [shapeL] at h
  | cons pr pt ih =>
      cases x with
      | nil => simp [shapeL] at h
      | cons xr xt =>
          simp only [shapeL_cons, List.cons.injEq] at h
          simp only [List.zipWith_cons_cons, shapeL_cons, List.cons.injEq]
          exact ⟨by simp [List.length_zipWith, h.1], ih h.2⟩

theorem maskDom_cons {D : ℝ → Prop} {pr : List Bool} {pt : List (List Bool)}
    {xr : List ℝ} {xt : Tensor} (h : MaskDom D (pr :: pt) (xr :: xt)) :
    (∀ e ∈ pr.zip xr, e.1 = true → D e.2) ∧ MaskDom D pt xt := by
  constructor
  · exact h (pr, xr) (by simp [List.zip_cons_cons])
  · intro q hq e he h1
    exact h q (by simp [List.zip_cons_cons, hq]) e he h1

theorem zipWith_congr_dom {α β γ : Type} {k k' : α → β → γ} {P : α → β → Prop}
    {r : List α} {s : List β}
    (hd : ∀ e ∈ r.zip s, P e.1 e.2)
    (hk : ∀ b v, P b v → k b v = k' b v) :
    List.zipWith k r s = List.zipWith k' r s := by
  induction r generalizing s with
  | nil => rfl
  | cons a t ih =>
      cases s with
      | nil => rfl
      | cons b u =>
          simp only [List.zipWith_cons_cons, List.cons.injEq]
          constructor
          · exact hk a b (hd (a, b) (by simp [List.zip_cons_cons]))
          · exact ih (fun e he => hd e (by simp [List.zip_cons_cons, he]))

theorem tzip_congr_dom {D : ℝ → Prop} {k l : Bool → ℝ → ℝ}
    {p : List (List Bool)} {x : Tensor}
    (hd : MaskDom D p x)
    (hk : ∀ b v, (b = true → D v) → k b v = l b v) :
    tzip k p x = tzip l p x := by
  unfold tzip
  induction p generalizing x with
  | nil => rfl
  | cons pr pt ih =>
      cases x with
      | nil => rfl
      | cons xr xt =>
          obtain ⟨h1, h2⟩ := maskDom_cons hd
          simp only [List.zipWith_cons_cons, List.cons.injEq]
          constructor
          · exact zipWith_congr_dom (P := fun b v => b = true → D v) h1 hk
          · exact ih h2

theorem zipWith_id_right {α β : Type} {r : List α} {s : List β}
    (h : r.length = s.length) : List.zipWith (fun _ v => v) r s = s := by
  induction r generalizing s with
  | nil => cases s with
      | nil => rfl
      | cons b u => simp at h
  | cons a t ih =>
      cases s with
      | nil => simp at h
      | cons b u =>
          simp only [List.length_cons, Nat.succ_inj] at h
          simp [ih h]

theorem tzip_id_shape {p : List (List Bool)} {x : Tensor}
    (h : shapeL p = shapeL x) : tzip (fun _ v => v) p x = x := by
  unfold tzip
  induction p generalizing x with
  | nil => cases x with
      | nil => rfl
      | cons xr xt => simp [shapeL] at h
  | cons pr pt ih =>
      cases x with
      | nil => simp [shapeL] at h
      | cons xr xt =>
          simp only [shapeL_cons, List.cons.injEq] at h
          simp only [List.zipWith_cons_cons, List.cons.injEq]
          exact ⟨zipWith_id_right h.1, ih h.2⟩

theorem tzip_zero_elem (p : List (List Bool)) (x : Tensor) :
    IsZeroT (tzip (fun _ _ => (0:ℝ)) p x) := by
  unfold tzip
  induction p generalizing x with
  | nil => intro r hr; simp at hr
  | cons pr pt ih =>
      intro r hr
      cases x with
      | nil => simp at hr
      | cons xr xt =>
          simp only [List.zipWith_cons_cons, List.mem_cons] at hr
          rcases hr with h | h
          · subst h
            intro v hv
            induction pr generalizing xr with
            | nil => simp at hv
            | cons a t ih2 =>
                cases xr with
                | nil => simp at hv
                | cons b u =>
                    simp only [List.zipWith_cons_cons, List.mem_cons] at hv
                    rcases hv with h | h
                    · exact h
                    · exact ih2 u h
          · exact ih xt r h

theorem tzip_isZeroT {D : ℝ → Prop} {k : Bool → ℝ → ℝ} {p : List (List Bool)}
    {x : Tensor} (hd : MaskDom D p x)
    (hk : ∀ b v, (b = true → D v) → k b v = 0) :
    IsZeroT (tzip k p x) := by
  rw [tzip_congr_dom hd hk]
  exact tzip_zero_elem p x

theorem listSum_add_eq (r s : List ℝ) (h : r.length = s.length) :
    (List.zipWith (· + ·) r s).sum = r.sum + s.sum := by
  induction r generalizing s with
  | nil => cases s with
      | nil => simp
      | cons b u => simp at h
  | cons a t ih =>
      cases s with
      | nil => simp at h
      | cons b u =>
          simp only [List.length_cons, Nat.succ_inj] at h
          simp only [List.zipWith_cons_cons, List.sum_cons, ih u h]
          ring

theorem zip_sums_zero : ∀ (A B : Tensor), shapeL A = shapeL B →
    IsZeroT (Tensor.add2 A B) →
    ∀ c ∈ List.zipWith (· + ·) (A.map (fun r => r.sum)) (B.map (fun r => r.sum)),
      c = 0 := by
  intro A
  induction A with
  | nil => intro B _ _ c hc; simp at hc
  | cons ar at_ ih =>
      intro B hsh hz c hc
      cases B with
      | nil => simp at hc
      | cons br bt =>
          simp only [shapeL_cons, List.cons.injEq] at hsh
          simp only [List.map_cons, List.zipWith_cons_cons, List.mem_cons] at hc
          rcases hc with h | h
          · have hzr : ∀ v ∈ List.zipWith (· + ·) ar br, v = 0 :=
              fun v hv => hz _ (by simp [Tensor.add2, tzip]) v hv
            rw [h, ← listSum_add_eq ar br hsh.1]
            exact List.sum_eq_zero hzr
          · refine ih bt hsh.2 (fun r hr v hv => hz r ?_ v hv) c h
            simp only [Tensor.add2, tzip, List.zipWith_cons_cons, List.mem_cons]
            exact Or.inr hr

theorem sd_add_isZero {pd : Bool} {A B : Tensor}
    (hsh : shapeL A = shapeL B)
    (hz : IsZeroT (Tensor.add2 A B)) :
    (Module_.sum_density pd A + Module_.sum_density pd B).IsZero := by
  cases pd with
  | true =>
      show (LogD.add (LogD.perElem A) (LogD.perElem B)).IsZero
      simp only [LogD.add, hsh, if_true]
      exact hz
  | false =>
      show (LogD.add (LogD.perBatch (A.map (fun r => r.sum)))
        (LogD.perBatch (B.map (fun r => r.sum)))).IsZero
      have hlen : A.length = B.length := by
        have := congrArg List.length hsh
        simpa [shapeL] using this
      simp only [LogD.add, List.length_map, hlen, if_true]
      exact zip_sums_zero A B hsh hz

/-! ### Masked wrapper round trip -/

theorem wrapper_fwd_eq (pd : Bool) (m : Mask) (e : ElemNet) (x : Tensor)
    (log0 : LogD) :
    MaskedWrapperNet_.forward pd m e.fwd x log0 =
      (tzip (fun b v =>
          (if b then e.f (if b then v else 0) else 0) + (if b then 0 else v))
          m.pattern x,
        log0 + Module_.sum_density pd
          (tzip (fun b v => if b then e.jf (if b then v else 0) else 0)
            m.pattern x)) := by
  unfold MaskedWrapperNet_.forward ElemNet.fwd Mask.split Mask.cat
    MaskedWrapperNet_.overrideSD
  dsimp only
  rw [LogD.zero_add]
  dsimp only [Mask.purifyL, Module_.sum_densityL]
  simp only [Mask.purify, eq_self_iff_true, if_true, Mask.keep, Mask.drop]
  rw [emap_tzip, emap_tzip, tzip_tzip, tzip_tzip, add2_tzip_tzip]

theorem wrapper_bwd_eq (pd : Bool) (m : Mask) (e : ElemNet) (x : Tensor)
    (log0 : LogD) :
    MaskedWrapperNet_.backward pd m e.bwd x log0 =
      (tzip (fun b v =>
          (if b then e.finv (if b then v else 0) else 0) + (if b then 0 else v))
          m.pattern x,
        log0 + Module_.sum_density pd
          (tzip (fun b v => if b then e.jb (if b then v else 0) else 0)
            m.pattern x)) := by
  unfold MaskedWrapperNet_.backward ElemNet.bwd Mask.split Mask.cat
    MaskedWrapperNet_.overrideSD
  dsimp only
  rw [LogD.zero_add]
  dsimp only [Mask.purifyL, Module_.sum_densityL]
  simp only [Mask.purify, eq_self_iff_true, if_true, Mask.keep, Mask.drop]
  rw [emap_tzip, emap_tzip, tzip_tzip, tzip_tzip, add2_tzip_tzip]

theorem rt_wrapper (pd : Bool) (m : Mask) (e : ElemNet) (D : ℝ → Prop)
    (x : Tensor)
    (hsh : shapeL m.pattern = shapeL x)
    (hd : MaskDom D m.pattern x)
    (hinv : ∀ v, D v → e.finv (e.f v) = v)
    (hjac : ∀ v, D v → e.jb (e.f v) = -(e.jf v)) :
    RoundTrip0 (MaskedWrapperNet_.forward pd m e.fwd)
      (MaskedWrapperNet_.backward pd m e.bwd) x := by
  unfold RoundTrip0
  rw [wrapper_fwd_eq, LogD.zero_add, wrapper_bwd_eq]
  dsimp only
  rw [tzip_tzip, tzip_tzip]
  constructor
  · refine (tzip_congr_dom (l := fun _ v => v) hd ?_).trans (tzip_id_shape hsh)
    intro b v hbv
    cases b
    · simp
    · simp [hinv v (hbv rfl)]
  · refine sd_add_isZero ?_ ?_
    · rw [shapeL_tzip _ hsh, shapeL_tzip _ hsh]
    · rw [add2_tzip_tzip]
      refine tzip_isZeroT hd ?_
      intro b v hbv
      cases b
      · simp
      · simp [hjac v (hbv rfl)]

/-! ### Claim theorems -/

/-- C1: Round-trip — for every module defined in this file (`Identity_`,
`Clone_`, `ScaleNet_`, `Tanh_`, `ArcTanh_`, `Expit_`, `Logit_`,
`SgnBiasNet_`, `SplineNet_`, `DistConvertor_`, `MaskedWrapperNet_`) and
every input in that module's valid domain, `backward` applied to the result
of `forward(x, 0)` returns `x` and the returned accumulated log-density is
zero. -/
theorem C1_round_trip (pd : Bool) (logw wSgn : ℝ) (sp spC : Spline)
    (spline_shape : List ℕ) (D DW : ℝ → Prop) (knots_len : ℕ)
    (symmetric sgnbias initial_scale final_scale : Bool) (logwC wC : ℝ)
    (m : Mask) (e : ElemNet)
    (x1 x2 x3 x4 x5 x6 x7 x8 x9 x10 x11 : Tensor)
    (hr3 : Rect x3)
    (hx5 : ElemDom (fun v => |v| < 1) x5)
    (hr6 : Rect x6)
    (hr7 : Rect x7) (hx7 : ElemDom unitOO x7)
    (hr8 : Rect x8)
    (hc9 : SplineInverts sp D) (hr9 : Rect x9) (hx9 : ElemDom D x9)
    (hc10 : SplineInverts spC unitOO) (hm10 : SplineMapsInto spC unitOO unitOO)
    (hr10 : Rect x10)
    (hsh : shapeL m.pattern = shapeL x11) (hd : MaskDom DW m.pattern x11)
    (hinv : ∀ v, DW v → e.finv (e.f v) = v)
    (hjac : ∀ v, DW v → e.jb (e.f v) = -(e.jf v)) :
    C1Prop pd logw wSgn sp spC spline_shape knots_len symmetric sgnbias
      initial_scale final_scale logwC wC m e x1 x2 x3 x4 x5 x6 x7 x8 x9 x10 x11 :=
  ⟨rt_identity x1, rt_clone x2, rt_scale pd logw x3 hr3, rt_tanh pd x4,
    rt_arctanh pd x5 hx5, rt_expit pd x6 hr6, rt_logit pd x7 hr7 hx7,
    rt_sgnbias pd wSgn x8 hr8, rt_spline pd sp spline_shape D hc9 x9 hr9 hx9,
    rt_distconv pd spC knots_len symmetric sgnbias initial_scale final_scale
      logwC wC hc10 hm10 x10 hr10,
    rt_wrapper pd m e DW x11 hsh hd hinv hjac⟩

/-- Witness for C1 at concrete inputs: every module's round trip at the
sample `[[0.5]]`, with the identity spline evaluator and the identity
elementwise inner module. -/
theorem C1_round_trip_witness :
    C1Prop false 1 1 spId spId [] 2 false false false false 1 1
      ⟨[[true]]⟩ enetId [[0.5]] [[0.5]] [[0.5]] [[0.5]] [[0.5]] [[0.5]] [[0.5]]
      [[0.5]] [[0.5]] [[0.5]] [[0.5]] := by
  have hrect : Rect [[(0.5:ℝ)]] := by
    intro n hn
    rw [show shapeL [[(0.5:ℝ)]] = [1] from rfl] at hn ⊢
    rw [List.mem_singleton] at hn
    subst hn
    rfl
  have hdom : ∀ D : ℝ → Prop, D 0.5 → ElemDom D [[(0.5:ℝ)]] := by
    intro D hD r hr v hv
    rw [List.mem_singleton] at hr
    subst hr
    rw [List.mem_singleton] at hv
    subst hv
    exact hD
  refine C1_round_trip false 1 1 spId spId [] unitOO unitOO 2 false false false
    false 1 1 ⟨[[true]]⟩ enetId _ _ _ _ _ _ _ _ _ _ _ hrect ?_ hrect hrect ?_
    hrect ?_ hrect ?_ ?_ ?_ hrect rfl ?_ (fun v _ => rfl) ?_
  · exact hdom _ (by rw [abs_lt]; constructor <;> norm_num)
  · exact hdom _ (by constructor <;> norm_num)
  · intro v hv
    exact ⟨rfl, by norm_num [spId], by norm_num [spId]⟩
  · exact hdom _ (by constructor <;> norm_num)
  · intro v hv
    exact ⟨rfl, by norm_num [spId], by norm_num [spId]⟩
  · intro v hv
    simpa [spId] using hv
  · intro q hq e he h1
    simp only [List.zip_cons_cons, List.zip_nil_right, List.mem_singleton] at hq
    subst hq
    simp only [List.zip_cons_cons, List.zip_nil_right, List.mem_singleton] at he
    subst he
    constructor <;> norm_num
  · intro v hv
    simp [enetId]

/-- C2: Inverse-pair exactness — `Tanh_.backward` is `ArcTanh_().forward`
and `Expit_.backward` is `Logit_().forward` (backward constructs the dual
module and invokes its forward), the forward maps are exact functional
inverses on their domains, and the per-element log-Jacobians have opposite
signs at corresponding points. -/
theorem C2_inverse_pairs (pd : Bool) (x y z : Tensor) (l l2 : LogD)
    (hy : ElemDom (fun v => |v| < 1) y) (hz : ElemDom unitOO z) :
    C2Prop pd x y z l l2 := by
  refine ⟨rfl, rfl, rfl, rfl, ?_, ?_, ?_, ?_, ?_, ?_⟩
  · show Tensor.emap torchAtanh (Tensor.emap Real.tanh x) = x
    rw [emap_emap]
    exact emap_id (elemDom_allR x) (fun v _ => atanh_tanh v)
  · show Tensor.emap Real.tanh (Tensor.emap torchAtanh y) = y
    rw [emap_emap]
    exact emap_id hy (fun v hv => tanh_atanh hv)
  · show Tensor.emap (fun v => Real.log (v / (1 - v)))
      (Tensor.emap expit x) = x
    rw [emap_emap]
    exact emap_id (elemDom_allR x) (fun v _ => logit_expit v)
  · show Tensor.emap expit
      (Tensor.emap (fun v => Real.log (v / (1 - v))) z) = z
    rw [emap_emap]
    exact emap_id hz (fun v hv => expit_logit hv.1 hv.2)
  · dsimp only [Tanh_.forward, ArcTanh_.forward]
    rw [LogD.zero_add, LogD.zero_add, emap_emap, emap_emap,
      show (fun v => Real.log (Real.cosh (torchAtanh (Real.tanh v)))) =
        fun v => Real.log (Real.cosh v) from
        funext (fun v => by rw [atanh_tanh]),
      ← LogD.neg_smul_two, LogD.neg_neg]
  · rw [Expit_forward_eq]
    dsimp only [Logit_.forward]
    rw [LogD.zero_add, LogD.zero_add, emap_emap,
      show (fun v => Real.log (expit v * (1 - expit v))) =
        fun v => -v + 2 * Real.log (expit v) from funext jl_expit]

/-- Witness for C2 at the concrete sample `[[0.5]]` and `log0 = 0`. -/
theorem C2_inverse_pairs_witness :
    C2Prop false [[0.5]] [[0.5]] [[0.5]] (LogD.scalar 0) (LogD.scalar 0) := by
  have hdom : ∀ D : ℝ → Prop, D 0.5 → ElemDom D [[(0.5:ℝ)]] := by
    intro D hD r hr v hv
    rw [List.mem_singleton] at hr
    subst hr
    rw [List.mem_singleton] at hv
    subst hv
    exact hD
  exact C2_inverse_pairs false [[0.5]] [[0.5]] [[0.5]] (LogD.scalar 0)
    (LogD.scalar 0)
    (hdom _ (by rw [abs_lt]; constructor <;> norm_num))
    (hdom _ (by constructor <;> norm_num))

/-! ### Pointwise access lemmas -/

theorem getD_zipWith {α β γ : Type} (k : α → β → γ) (a : List α) (b : List β)
    (i : ℕ) (da : α) (db : β) (dc : γ) (ha : i < a.length) (hb : i < b.length) :
    (List.zipWith k a b).getD i dc = k (a.getD i da) (b.getD i db) := by
  induction a generalizing b i with
  | nil => simp at ha
  | cons p t ih =>
      cases b with
      | nil => simp at hb
      | cons q u =>
          cases i with
          | zero => simp
          | succ n =>
              simp only [List.length_cons, Nat.succ_lt_succ_iff] at ha hb
              simp only [List.zipWith_cons_cons, List.getD_cons_succ]
              exact ih u n ha hb

theorem shapeL_len {α β : Type} {a : List (List α)} {b : List (List β)}
    (h : shapeL a = shapeL b) : a.length = b.length := by
  have := congrArg List.length h
  simpa [shapeL] using this

theorem shapeL_row {α β : Type} {a : List (List α)} {b : List (List β)}
    (h : shapeL a = shapeL b) (i : ℕ) :
    (a.getD i []).length = (b.getD i []).length := by
  induction a generalizing b i with
  | nil =>
      cases b with
      | nil => rfl
      | cons q u => simp [shapeL] at h
  | cons p t ih =>
      cases b with
      | nil => simp [shapeL] at h
      | cons q u =>
          simp only [shapeL_cons, List.cons.injEq] at h
          cases i with
          | zero => simpa using h.1
          | succ n => simpa using ih h.2 n

theorem gete_tzip {α β γ : Type} (k : α → β → γ) {p : List (List α)}
    {t : List (List β)} (dp : α) (dt : β) (dc : γ) {i j : ℕ}
    (hip : i < p.length) (hit : i < t.length)
    (hjp : j < (p.getD i []).length) (hjt : j < (t.getD i []).length) :
    gete (tzip k p t) dc i j = k (gete p dp i j) (gete t dt i j) := by
  unfold gete tzip
  rw [getD_zipWith (List.zipWith k) p t i [] [] [] hip hit]
  exact getD_zipWith k _ _ j dp dt dc hjp hjt

/-! ### Frozen-lane preservation -/

theorem mask_cat_split (m : Mask) (x : Tensor)
    (hsh : shapeL m.pattern = shapeL x) :
    Mask.cat m (Mask.split m x).1 (Mask.split m x).2 = x := by
  show Tensor.add2 (m.keep x) (m.drop x) = x
  unfold Mask.keep Mask.drop
  rw [add2_tzip_tzip]
  refine (tzip_congr_dom (D := allR) (fun _ _ _ _ _ => trivial) ?_).trans
    (tzip_id_shape hsh)
  intro b v _
  cases b <;> simp

theorem wrapper_bwd_as_fwd (pd : Bool) (m : Mask)
    (netB : (Tensor → LogD) → Tensor → LogD → Tensor × LogD)
    (x : Tensor) (log0 : LogD) :
    MaskedWrapperNet_.backward pd m netB x log0 =
      MaskedWrapperNet_.forward pd m netB x log0 := rfl

theorem wrapper_fwd_frozen (pd : Bool) (m : Mask)
    (netF : (Tensor → LogD) → Tensor → LogD → Tensor × LogD)
    (x : Tensor) (log0 : LogD) (i j : ℕ)
    (hsh : shapeL m.pattern = shapeL x)
    (hFs : shapeL (netF MaskedWrapperNet_.overrideSD (m.keep x)
      (LogD.scalar 0)).1 = shapeL (m.keep x))
    (hi : i < x.length) (hj : j < (x.getD i []).length)
    (hfrozen : gete m.pattern false i j = false) :
    gete (MaskedWrapperNet_.forward pd m netF x log0).1 0 i j = gete x 0 i j := by
  show gete (Tensor.add2
      (Mask.purify m (netF MaskedWrapperNet_.overrideSD (m.keep x)
        (LogD.scalar 0)).1 0)
      (m.drop x)) 0 i j = gete x 0 i j
  set a : Tensor := (netF MaskedWrapperNet_.overrideSD (m.keep x)
    (LogD.scalar 0)).1 with hadef
  have ha : shapeL a = shapeL x := by
    refine hFs.trans ?_
    exact shapeL_tzip _ hsh
  have hpa : shapeL m.pattern = shapeL a := hsh.trans ha.symm
  have hA : shapeL (tzip (fun b v => if b then v else 0) m.pattern a) =
      shapeL x := (shapeL_tzip _ hpa).trans ha
  have hB : shapeL (tzip (fun b v => if b then 0 else v) m.pattern x) =
      shapeL x := shapeL_tzip _ hsh
  have hlx : i < m.pattern.length := by rw [shapeL_len hsh]; exact hi
  have hrx : j < (m.pattern.getD i []).length := by rw [shapeL_row hsh]; exact hj
  unfold Mask.purify
  rw [if_pos rfl]
  unfold Mask.keep Mask.drop Tensor.add2
  rw [gete_tzip (fun a b => a + b) 0 0 0
    (by rw [shapeL_len hA]; exact hi) (by rw [shapeL_len hB]; exact hi)
    (by rw [shapeL_row hA]; exact hj) (by rw [shapeL_row hB]; exact hj)]
  rw [gete_tzip _ false 0 0 hlx (by rw [shapeL_len ha]; exact hi) hrx
    (by rw [shapeL_row ha]; exact hj)]
  rw [gete_tzip _ false 0 0 hlx hi hrx hj]
  rw [hfrozen]
  simp

/-- C3: Masked-wrapper frame property — for any mask (which satisfies the
split/cat contract, see `mask_cat_split`) and any shape-preserving inner
module, `MaskedWrapperNet_.forward` and `backward` leave every frozen
element of `x` bit-identical; only the active subset is transformed. -/
theorem C3_frozen_frame (pd : Bool) (m : Mask)
    (netF netB : (Tensor → LogD) → Tensor → LogD → Tensor × LogD)
    (x : Tensor) (log0 : LogD) (i j : ℕ)
    (hsh : shapeL m.pattern = shapeL x)
    (hFs : shapeL (netF MaskedWrapperNet_.overrideSD (m.keep x)
      (LogD.scalar 0)).1 = shapeL (m.keep x))
    (hBs : shapeL (netB MaskedWrapperNet_.overrideSD (m.keep x)
      (LogD.scalar 0)).1 = shapeL (m.keep x))
    (hi : i < x.length) (hj : j < (x.getD i []).length)
    (hfrozen : gete m.pattern false i j = false) :
    gete (MaskedWrapperNet_.forward pd m netF x log0).1 0 i j = gete x 0 i j ∧
    gete (MaskedWrapperNet_.backward pd m netB x log0).1 0 i j = gete x 0 i j := by
  constructor
  · exact wrapper_fwd_frozen pd m netF x log0 i j hsh hFs hi hj hfrozen
  · rw [wrapper_bwd_as_fwd]
    exact wrapper_fwd_frozen pd m netB x log0 i j hsh hBs hi hj hfrozen

/-- Witness for C3: the mask `[[false]]` freezes the single lane, the inner
module is the identity, and the element `3` passes through both directions
unchanged. -/
theorem C3_frozen_frame_witness :
    gete (MaskedWrapperNet_.forward false ⟨[[false]]⟩ (fun _ z l => (z, l))
      [[3]] (LogD.scalar 0)).1 0 0 0 = gete [[(3:ℝ)]] 0 0 0 ∧
    gete (MaskedWrapperNet_.backward false ⟨[[false]]⟩ (fun _ z l => (z, l))
      [[3]] (LogD.scalar 0)).1 0 0 0 = gete [[(3:ℝ)]] 0 0 0 :=
  C3_frozen_frame false ⟨[[false]]⟩ (fun _ z l => (z, l)) (fun _ z l => (z, l))
    [[3]] (LogD.scalar 0) 0 0 rfl rfl rfl (by norm_num) (by norm_num) rfl

/-- C4: The wrapper's construction-time override — `MaskedWrapperNet_`
installs the identity over the inner module's `sum_density` (so the inner
call returns the raw per-element density) and saves the original reduction;
its forward and backward reduce the mask-purified per-element density with
that saved original function: purify happens before reduce. -/
theorem C4_override_purify_reduce (pd : Bool) (m : Mask) (sp : Spline)
    (spline_shape : List ℕ) (x : Tensor) (log0 : LogD) (t : Tensor) :
    MaskedWrapperNet_.overrideSD t = LogD.perElem t ∧
    (MaskedWrapperNet_.forward pd m (SplineNet_.forward sp spline_shape)
        x log0).2 =
      log0 + Module_.sum_density pd
        (m.purify (Tensor.emap (fun v => Real.log (sp.eval v).2)
          (m.split x).1) 0) ∧
    (MaskedWrapperNet_.backward pd m (SplineNet_.backward sp spline_shape)
        x log0).2 =
      log0 + Module_.sum_density pd
        (m.purify (Tensor.emap (fun v => Real.log (sp.evalInv v).2)
          (m.split x).1) 0) := by
  refine ⟨rfl, ?_, ?_⟩
  · show log0 + Module_.sum_densityL pd (Mask.purifyL m
      (SplineNet_.forward sp spline_shape MaskedWrapperNet_.overrideSD
        (m.split x).1 (LogD.scalar 0)).2 0) = _
    rw [SplineNet_forward_eq]
    dsimp only [MaskedWrapperNet_.overrideSD]
    rw [LogD.zero_add]
    dsimp only [Mask.purifyL, Module_.sum_densityL]
  · show log0 + Module_.sum_densityL pd (Mask.purifyL m
      (SplineNet_.backward sp spline_shape MaskedWrapperNet_.overrideSD
        (m.split x).1 (LogD.scalar 0)).2 0) = _
    rw [SplineNet_backward_eq]
    dsimp only [MaskedWrapperNet_.overrideSD]
    rw [LogD.zero_add]
    dsimp only [Mask.purifyL, Module_.sum_densityL]

/-- C5: `DistConvertor_` assembly — for `knots_len > 1` the module list is
`[optional SgnBiasNet_] ++ [optional initial ScaleNet_] ++ [Expit_,
SplineNet_, Logit_] ++ [optional final ScaleNet_]` (the final scale only
when no initial scale was requested, cf. C10); with `symmetric = True` the
spline stage is configured with `xlim = (0.5, 1)`, `ylim = (0.5, 1)` and an
anti-symmetric left extrapolation; and a requested `SgnBiasNet_` occupies
the first position. -/
theorem C5_assembly (knots_len : ℕ)
    (symmetric sgnbias initial_scale final_scale : Bool) (logw w : ℝ)
    (hk : 1 < knots_len) :
    DistConvertor_.nets_ knots_len symmetric sgnbias initial_scale final_scale
        logw w =
      (if sgnbias then [Net.sgnbias "sgnbias_" w] else []) ++
      ((if initial_scale then [Net.scale "scale_" logw] else []) ++
        [Net.expit "expit_",
          Net.spline "spline_" knots_len
            (if symmetric then ⟨(0.5, 1), (0.5, 1), true⟩
              else ⟨(0, 1), (0, 1), false⟩),
          Net.logit "logit_"] ++
        (if final_scale && !initial_scale then [Net.scale "scale_" logw]
          else [])) ∧
    (symmetric = true →
      DistConvertor_.get_spline_
          (DistConvertor_.nets_ knots_len symmetric sgnbias initial_scale
            final_scale logw w) =
        some (Net.spline "spline_" knots_len ⟨(0.5, 1), (0.5, 1), true⟩)) ∧
    (sgnbias = true →
      (DistConvertor_.nets_ knots_len symmetric sgnbias initial_scale
          final_scale logw w).head? =
        some (Net.sgnbias "sgnbias_" w)) := by
  cases symmetric <;> cases sgnbias <;> cases initial_scale <;>
    cases final_scale <;>
    simp [DistConvertor_.nets_, hk, DistConvertor_.get_spline_, Net.label,
      List.find?]

/-- Witness for C5 at `knots_len = 2` with a symmetric spline, a sign-bias
stage and an initial scale stage. -/
theorem C5_assembly_witness :
    DistConvertor_.nets_ 2 true true true false 1 1 =
      (if true then [Net.sgnbias "sgnbias_" 1] else []) ++
      ((if true then [Net.scale "scale_" 1] else []) ++
        [Net.expit "expit_",
          Net.spline "spline_" 2
            (if true then ⟨(0.5, 1), (0.5, 1), true⟩
              else ⟨(0, 1), (0, 1), false⟩),
          Net.logit "logit_"] ++
        (if false && !true then [Net.scale "scale_" 1] else [])) ∧
    (true = true →
      DistConvertor_.get_spline_ (DistConvertor_.nets_ 2 true true true false 1 1) =
        some (Net.spline "spline_" 2 ⟨(0.5, 1), (0.5, 1), true⟩)) ∧
    (true = true →
      (DistConvertor_.nets_ 2 true true true false 1 1).head? =
        some (Net.sgnbias "sgnbias_" 1)) :=
  C5_assembly 2 true true true false 1 1 (by norm_num)

/-- C6: Degenerate convertor — `DistConvertor_(knots_len=1)` with no
optional stages assembles the empty module list, and its forward and
backward are the exact identity on `(x, log0)`. -/
theorem C6_degenerate (pd : Bool) (sp : Spline) (symmetric : Bool)
    (logw w : ℝ) (x : Tensor) (log0 : LogD) :
    DistConvertor_.nets_ 1 symmetric false false false logw w = [] ∧
    DistConvertor_.forward pd sp 1 symmetric false false false logw w x log0 =
      (x, log0) ∧
    DistConvertor_.backward pd sp 1 symmetric false false false logw w x log0 =
      (x, log0) := by
  have h : DistConvertor_.nets_ 1 symmetric false false false logw w = [] := by
    simp [DistConvertor_.nets_]
  refine ⟨h, ?_, ?_⟩
  · unfold DistConvertor_.forward
    rw [h]
    rfl
  · unfold DistConvertor_.backward
    rw [h]
    rfl

/-- C7: Density-mode shape consistency — the log-Jacobian term
`ScaleNet_.forward` adds to `log0` is `log_jacobian` of `x`'s shape; in
per-element mode it is `logw` broadcast to `x`'s shape, in scalar mode one
entry per batch item equal to `logw` times the number of non-batch
elements; and the generic reduction helper keeps the per-element array in
per-element mode and returns one sum per batch item otherwise. -/
theorem C7_density_mode (pd : Bool) (logw : ℝ) (x t : Tensor) (log0 : LogD)
    (hr : Rect x) :
    (ScaleNet_.forward pd logw x log0).2 =
      log0 + ScaleNet_.log_jacobian pd logw x.length ((x.headD []).length) ∧
    ScaleNet_.log_jacobian true logw x.length ((x.headD []).length) =
      LogD.perElem (List.replicate x.length
        (List.replicate ((x.headD []).length) logw)) ∧
    shapeL (List.replicate x.length
      (List.replicate ((x.headD []).length) logw)) = shapeL x ∧
    ScaleNet_.log_jacobian false logw x.length ((x.headD []).length) =
      LogD.perBatch
        (List.replicate x.length (logw * ((x.headD []).length : ℕ))) ∧
    (List.replicate x.length (logw * ((x.headD []).length : ℕ))).length =
      x.length ∧
    (∀ c ∈ List.replicate x.length (logw * ((x.headD []).length : ℕ)),
      c = logw * ((x.headD []).length : ℕ)) ∧
    Module_.sum_density true t = LogD.perElem t ∧
    Module_.sum_density false t =
      LogD.perBatch (t.map (fun r => r.sum)) ∧
    (t.map (fun r => r.sum)).length = t.length := by
  refine ⟨rfl, by simp [ScaleNet_.log_jacobian], ?_,
    by simp [ScaleNet_.log_jacobian], by simp, ?_, rfl, rfl, by simp⟩
  · rw [rect_shapeL_replicate hr]
    simp [shapeL, List.map_replicate]
  · intro c hc
    exact List.eq_of_mem_replicate hc

/-- Witness for C7 at the rectangular sample `[[0.5, 1.5]]`. -/
theorem C7_density_mode_witness :
    (ScaleNet_.forward false 1 [[0.5, 1.5]] (LogD.scalar 0)).2 =
      LogD.scalar 0 + ScaleNet_.log_jacobian false 1 (List.length [[0.5, 1.5]])
        ((List.headD [[0.5, 1.5]] []).length) ∧
    ScaleNet_.log_jacobian true 1 (List.length [[0.5, 1.5]])
        ((List.headD [[(0.5:ℝ), 1.5]] []).length) =
      LogD.perElem (List.replicate (List.length [[(0.5:ℝ), 1.5]])
        (List.replicate ((List.headD [[(0.5:ℝ), 1.5]] []).length) 1)) ∧
    shapeL (List.replicate (List.length [[(0.5:ℝ), 1.5]])
      (List.replicate ((List.headD [[(0.5:ℝ), 1.5]] []).length) (1:ℝ))) =
      shapeL [[(0.5:ℝ), 1.5]] ∧
    ScaleNet_.log_jacobian false 1 (List.length [[(0.5:ℝ), 1.5]])
        ((List.headD [[(0.5:ℝ), 1.5]] []).length) =
      LogD.perBatch (List.replicate (List.length [[(0.5:ℝ), 1.5]])
        (1 * (((List.headD [[(0.5:ℝ), 1.5]] []).length : ℕ) : ℝ))) ∧
    (List.replicate (List.length [[(0.5:ℝ), 1.5]])
      ((1:ℝ) * (((List.headD [[(0.5:ℝ), 1.5]] []).length : ℕ) : ℝ))).length =
      List.length [[(0.5:ℝ), 1.5]] ∧
    (∀ c ∈ List.replicate (List.length [[(0.5:ℝ), 1.5]])
      ((1:ℝ) * (((List.headD [[(0.5:ℝ), 1.5]] []).length : ℕ) : ℝ)),
      c = 1 * (((List.headD [[(0.5:ℝ), 1.5]] []).length : ℕ) : ℝ)) ∧
    Module_.sum_density true [[2]] = LogD.perElem [[2]] ∧
    Module_.sum_density false [[2]] =
      LogD.perBatch ([[(2:ℝ)]].map (fun r => r.sum)) ∧
    ([[(2:ℝ)]].map (fun r => r.sum)).length = List.length [[(2:ℝ)]] := by
  refine C7_density_mode false 1 [[0.5, 1.5]] [[2]] (LogD.scalar 0) ?_
  intro n hn
  rw [show shapeL [[(0.5:ℝ), 1.5]] = [2] from rfl] at hn ⊢
  rw [List.mem_singleton] at hn
  subst hn
  rfl

/-- C8: Spline-based transform — for any supplied spline evaluator with
strictly positive gradients, `SplineNet_.forward` evaluates the spline
elementwise at `x` and returns `(y, log0 + reduce(log grad))`; the
flattening to 1-D (with the shape restored afterwards) happens exactly when
the configured spline shape has zero rank, and restoring is exact:
`reshapeLike x` undoes `ravel`; `backward` does the same with the inverse
evaluation. -/
theorem C8_spline_transform (sp : Spline) (spline_shape : List ℕ)
    (sd : Tensor → LogD) (x : Tensor) (log0 : LogD) (h : ℝ → ℝ)
    (_hpos : ∀ v, 0 < (sp.eval v).2) (_hposInv : ∀ v, 0 < (sp.evalInv v).2) :
    SplineNet_.forward sp spline_shape sd x log0 =
      (x.emap (fun v => (sp.eval v).1),
        log0 + sd (x.emap (fun v => Real.log (sp.eval v).2))) ∧
    SplineNet_.backward sp spline_shape sd x log0 =
      (x.emap (fun v => (sp.evalInv v).1),
        log0 + sd (x.emap (fun v => Real.log (sp.evalInv v).2))) ∧
    (spline_shape.length = 0 →
      SplineNet_.forward sp spline_shape sd x log0 =
        (reshapeLike x ((x.ravel.map sp.eval).map Prod.fst),
          log0 + sd (Tensor.emap Real.log
            (reshapeLike x ((x.ravel.map sp.eval).map Prod.snd))))) ∧
    (0 < spline_shape.length →
      SplineNet_.forward sp spline_shape sd x log0 =
        (x.emap (fun v => (sp.eval v).1),
          log0 + sd (Tensor.emap Real.log
            (x.emap (fun v => (sp.eval v).2))))) ∧
    reshapeLike x (x.ravel.map h) = x.emap h := by
  refine ⟨SplineNet_forward_eq sp spline_shape sd x log0,
    SplineNet_backward_eq sp spline_shape sd x log0, ?_, ?_, reshapeLike_map h x⟩
  · intro h0
    unfold SplineNet_.forward
    rw [if_neg (by omega)]
  · intro h0
    unfold SplineNet_.forward
    rw [if_pos h0]

/-- Witness for C8 with the identity spline evaluator on the sample
`[[0.5]]`. -/
theorem C8_spline_transform_witness :
    SplineNet_.forward spId [] (Module_.sum_density false) [[0.5]]
        (LogD.scalar 0) =
      (Tensor.emap (fun v => (spId.eval v).1) [[(0.5:ℝ)]],
        LogD.scalar 0 + Module_.sum_density false
          (Tensor.emap (fun v => Real.log (spId.eval v).2) [[(0.5:ℝ)]])) ∧
    SplineNet_.backward spId [] (Module_.sum_density false) [[0.5]]
        (LogD.scalar 0) =
      (Tensor.emap (fun v => (spId.evalInv v).1) [[(0.5:ℝ)]],
        LogD.scalar 0 + Module_.sum_density false
          (Tensor.emap (fun v => Real.log (spId.evalInv v).2) [[(0.5:ℝ)]])) ∧
    (List.length ([] : List ℕ) = 0 →
      SplineNet_.forward spId [] (Module_.sum_density false) [[0.5]]
          (LogD.scalar 0) =
        (reshapeLike [[0.5]] ((Tensor.ravel [[0.5]]).map spId.eval
            |>.map Prod.fst),
          LogD.scalar 0 + Module_.sum_density false (Tensor.emap Real.log
            (reshapeLike [[0.5]] ((Tensor.ravel [[0.5]]).map spId.eval
              |>.map Prod.snd))))) ∧
    (0 < List.length ([] : List ℕ) →
      SplineNet_.forward spId [] (Module_.sum_density false) [[0.5]]
          (LogD.scalar 0) =
        (Tensor.emap (fun v => (spId.eval v).1) [[(0.5:ℝ)]],
          LogD.scalar 0 + Module_.sum_density false (Tensor.emap Real.log
            (Tensor.emap (fun v => (spId.eval v).2) [[(0.5:ℝ)]])))) ∧
    reshapeLike [[(0.5:ℝ)]] ((Tensor.ravel [[(0.5:ℝ)]]).map (fun v => v + 1)) =
      Tensor.emap (fun v => v + 1) [[(0.5:ℝ)]] :=
  C8_spline_transform spId [] (Module_.sum_density false) [[0.5]]
    (LogD.scalar 0) (fun v => v + 1)
    (fun v => by norm_num [spId]) (fun v => by norm_num [spId])

/-! ### Tagged lookup -/

theorem find_label_first (lbl : String) (pre post : List Net) (n : Net)
    (hpre : ∀ mm ∈ pre, mm.label ≠ lbl) (hn : n.label = lbl) :
    (pre ++ n :: post).find? (fun k => k.label == lbl) = some n := by
  induction pre with
  | nil =>
      rw [List.nil_append]
      exact List.find?_cons_of_pos _ (by simp [hn])
  | cons a t ih =>
      rw [List.cons_append, List.find?_cons_of_neg]
      · exact ih (fun mm hm => hpre mm (List.mem_cons_of_mem a hm))
      · simp [hpre a (List.mem_cons_self a t)]

/-- C9: Tagged lookup — `get_spline_`, `get_scale_` and `get_sgnbias_` scan
the module list in order and return the first module labelled `spline_`,
`scale_` or `sgnbias_` respectively, or `None` when no module carries the
label; and `cdf_mapper` applies the tagged spline stage directly to `cdf`,
bypassing every other stage. -/
theorem C9_tagged_lookup (pd : Bool) (sp : Spline)
    (netsA netsB : List Net) (nA : Net) (cdf : Tensor)
    (preS postS : List Net) (nS : Net)
    (preC postC : List Net) (nC : Net)
    (preG postG : List Net) (nG : Net)
    (hA : DistConvertor_.get_spline_ netsA = some nA)
    (hB : ∀ mm ∈ netsB, mm.label ≠ "spline_" ∧ mm.label ≠ "scale_" ∧
      mm.label ≠ "sgnbias_")
    (hpreS : ∀ mm ∈ preS, mm.label ≠ "spline_") (hnS : nS.label = "spline_")
    (hpreC : ∀ mm ∈ preC, mm.label ≠ "scale_") (hnC : nC.label = "scale_")
    (hpreG : ∀ mm ∈ preG, mm.label ≠ "sgnbias_")
    (hnG : nG.label = "sgnbias_") :
    nA.label = "spline_" ∧
    DistConvertor_.get_spline_ (preS ++ nS :: postS) = some nS ∧
    DistConvertor_.get_scale_ (preC ++ nC :: postC) = some nC ∧
    DistConvertor_.get_sgnbias_ (preG ++ nG :: postG) = some nG ∧
    DistConvertor_.get_spline_ netsB = none ∧
    DistConvertor_.get_scale_ netsB = none ∧
    DistConvertor_.get_sgnbias_ netsB = none ∧
    DistConvertor_.cdf_mapper pd sp netsA cdf =
      some (Net.forward pd sp nA cdf (LogD.scalar 0)) ∧
    DistConvertor_.cdf_mapper pd sp netsB cdf = none := by
  have hnone : DistConvertor_.get_spline_ netsB = none := by
    refine List.find?_eq_none.mpr (fun mm hm => ?_)
    simp [(hB mm hm).1]
  refine ⟨?_, ?_, ?_, ?_, hnone, ?_, ?_, ?_, ?_⟩
  · have := List.find?_some hA
    simpa using this
  · exact find_label_first "spline_" preS postS nS hpreS hnS
  · exact find_label_first "scale_" preC postC nC hpreC hnC
  · exact find_label_first "sgnbias_" preG postG nG hpreG hnG
  · refine List.find?_eq_none.mpr (fun mm hm => ?_)
    simp [(hB mm hm).2.1]
  · refine List.find?_eq_none.mpr (fun mm hm => ?_)
    simp [(hB mm hm).2.2]
  · unfold DistConvertor_.cdf_mapper
    rw [hA]
    rfl
  · unfold DistConvertor_.cdf_mapper
    rw [hnone]
    rfl

/-- Witness for C9 on small concrete module lists. -/
theorem C9_tagged_lookup_witness :
    (Net.spline "spline_" 2 ⟨(0, 1), (0, 1), false⟩).label = "spline_" ∧
    DistConvertor_.get_spline_ ([Net.expit "expit_"] ++
        Net.spline "spline_" 2 ⟨(0, 1), (0, 1), false⟩ :: []) =
      some (Net.spline "spline_" 2 ⟨(0, 1), (0, 1), false⟩) ∧
    DistConvertor_.get_scale_ ([Net.expit "expit_"] ++
        Net.scale "scale_" 1 :: []) = some (Net.scale "scale_" 1) ∧
    DistConvertor_.get_sgnbias_ ([Net.expit "expit_"] ++
        Net.sgnbias "sgnbias_" 1 :: []) = some (Net.sgnbias "sgnbias_" 1) ∧
    DistConvertor_.get_spline_ [Net.expit "expit_"] = none ∧
    DistConvertor_.get_scale_ [Net.expit "expit_"] = none ∧
    DistConvertor_.get_sgnbias_ [Net.expit "expit_"] = none ∧
    DistConvertor_.cdf_mapper false spId
        [Net.spline "spline_" 2 ⟨(0, 1), (0, 1), false⟩] [[0.5]] =
      some (Net.forward false spId
        (Net.spline "spline_" 2 ⟨(0, 1), (0, 1), false⟩) [[0.5]]
        (LogD.scalar 0)) ∧
    DistConvertor_.cdf_mapper false spId [Net.expit "expit_"] [[0.5]] =
      none := by
  refine C9_tagged_lookup false spId
    [Net.spline "spline_" 2 ⟨(0, 1), (0, 1), false⟩] [Net.expit "expit_"]
    (Net.spline "spline_" 2 ⟨(0, 1), (0, 1), false⟩) [[0.5]]
    [Net.expit "expit_"] [] (Net.spline "spline_" 2 ⟨(0, 1), (0, 1), false⟩)
    [Net.expit "expit_"] [] (Net.scale "scale_" 1)
    [Net.expit "expit_"] [] (Net.sgnbias "sgnbias_" 1)
    rfl ?_ ?_ rfl ?_ rfl ?_ rfl
  · intro mm hm
    rw [List.mem_singleton] at hm
    subst hm
    refine ⟨?_, ?_, ?_⟩ <;> simp [Net.label]
  · intro mm hm
    rw [List.mem_singleton] at hm
    subst hm
    simp [Net.label]
  · intro mm hm
    rw [List.mem_singleton] at hm
    subst hm
    simp [Net.label]
  · intro mm hm
    rw [List.mem_singleton] at hm
    subst hm
    simp [Net.label]

/-- C10: The `initial_scale` and `final_scale` options are mutually
exclusive in effect — with both `True` the assembled list equals the one
with `final_scale = False` (the final-scale request is silently ignored),
and no assembled pipeline ever contains two `ScaleNet_` stages. -/
theorem C10_scale_exclusive (knots_len : ℕ)
    (symmetric sgnbias initial_scale final_scale : Bool) (logw w : ℝ) :
    DistConvertor_.nets_ knots_len symmetric sgnbias true true logw w =
      DistConvertor_.nets_ knots_len symmetric sgnbias true false logw w ∧
    (DistConvertor_.nets_ knots_len symmetric sgnbias initial_scale
        final_scale logw w).countP (fun n => n.isScale) ≤ 1 := by
  constructor
  · simp [DistConvertor_.nets_]
  · cases sgnbias <;> cases initial_scale <;> cases final_scale <;>
      by_cases hk : 1 < knots_len <;>
      simp [DistConvertor_.nets_, hk, List.countP_cons, List.countP_append,
        List.countP_nil, Net.isScale]
